import Mathlib

/-!
Verification development for the zlogger daemon (Go repository `qzeleza/zlogger`).

The Go source under `internal/` is shallowly embedded: Go strings become
`List Char` (rune lists; all delimiters handled by the code are ASCII, where
byte positions and rune positions coincide), `time.Time` values handled by the
text codec become broken-down `GoDateTime` records at 1-second resolution
(the resolution of the on-disk format), machine integers become `Int`/`Nat`,
Go `float64` configuration values become `ℚ` with explicit truncation toward
zero where the code converts to `int64`, and fallible operations return
`Option`.  Functions keep their Go names where Lean allows.
-/

namespace ZLog

/-! ## Levels (`internal/levels.go`) -/

/-- Go `LogLevel` (`levels.go`): ordered severity enum DEBUG..PANIC. -/
inductive LogLevel where
  | DEBUG | INFO | WARN | ERROR | FATAL | PANIC
deriving DecidableEq, Repr

/-- Numeric value of a level (the Go `iota` value), used for comparisons. -/
def LogLevel.toNat : LogLevel → Nat
  | .DEBUG => 0
  | .INFO => 1
  | .WARN => 2
  | .ERROR => 3
  | .FATAL => 4
  | .PANIC => 5

/-- Shorthand for string literals as rune lists. -/
def str (s : String) : List Char := s.data

/-- Go `LogLevel.String()` (`levels.go`, via the `levelNames` table). -/
def LogLevel.name : LogLevel → List Char
  | .DEBUG => str "DEBUG"
  | .INFO => str "INFO"
  | .WARN => str "WARN"
  | .ERROR => str "ERROR"
  | .FATAL => str "FATAL"
  | .PANIC => str "PANIC"

/-- Go `levelValues` map (`levels.go`): name → level. -/
def levelValues : List (List Char × LogLevel) :=
  [(str "DEBUG", .DEBUG), (str "INFO", .INFO), (str "WARN", .WARN),
   (str "ERROR", .ERROR), (str "FATAL", .FATAL), (str "PANIC", .PANIC)]

/-! ## Go string helpers

Models of the `strings` standard-library functions the daemon uses.
`strings.Index`/`strings.LastIndex` return `-1` on absence; they are embedded
as `Option Nat` (the `-1` checks in the Go code become the `none` branches). -/

/-- Whitespace as recognised by Go `unicode.IsSpace` (the Latin-1 range). -/
def goIsSpace (c : Char) : Bool :=
  c = ' ' ∨ c = '\t' ∨ c = '\n' ∨ c = '\x0b' ∨ c = '\x0c' ∨ c = '\r' ∨
  c = '\x85' ∨ c = '\xa0'

/-- Go `strings.ToUpper` on one rune (ASCII case mapping). -/
def goToUpperChar (c : Char) : Char :=
  if 'a' ≤ c ∧ c ≤ 'z' then Char.ofNat (c.toNat - 32) else c

/-- Go `strings.ToUpper`. -/
def goToUpper (s : List Char) : List Char := s.map goToUpperChar

/-- Go `strings.TrimSpace`: drop leading and trailing whitespace. -/
def goTrimSpace (s : List Char) : List Char :=
  ((s.dropWhile goIsSpace).reverse.dropWhile goIsSpace).reverse

/-- Go `strings.Index s (one-char c)`: index of the first occurrence. -/
def goIndexOf (c : Char) : List Char → Option Nat
  | [] => none
  | a :: rest => if a = c then some 0 else (goIndexOf c rest).map (· + 1)

/-- Go `strings.LastIndex s (one-char c)`: index of the last occurrence. -/
def goLastIndexOf (c : Char) (s : List Char) : Option Nat :=
  match goIndexOf c s.reverse with
  | none => none
  | some i => some (s.length - 1 - i)

/-- Go `fmt.Sprintf "%-*s" w s`: left-justify, pad with spaces to width `w`. -/
def padRight (w : Nat) (s : List Char) : List Char :=
  s ++ List.replicate (w - s.length) ' '

/-- Go `ParseLevel` (`levels.go`): trim, upper-case, look up; on an unknown
token return `INFO` together with an error (second component `true`). -/
def ParseLevel (level : List Char) : LogLevel × Bool :=
  match levelValues.find? (fun p => p.1 = goToUpper (goTrimSpace level)) with
  | some p => (p.2, false)
  | none => (.INFO, true)

/-! ## Time codec

Layout `DEFAULT_TIME_FORMAT = "02-01-2006 15:04:05"` (`defaults.go`), used by
`formatMessageAsTXT` (Go `Time.Format`) and `parseLogEntry` (Go `time.Parse`).
A `GoDateTime` is the broken-down wall-clock value in the daemon's zone. -/

structure GoDateTime where
  year : Nat
  month : Nat
  day : Nat
  hour : Nat
  minute : Nat
  second : Nat
deriving DecidableEq, Repr

/-- Gregorian leap-year rule, as in Go `time.isLeap`. -/
def isLeapYear (y : Nat) : Bool := y % 4 = 0 ∧ (y % 100 ≠ 0 ∨ y % 400 = 0)

/-- Days in a month, as validated by Go `time.Parse`. -/
def daysInMonth (m y : Nat) : Nat :=
  if m = 2 then (if isLeapYear y then 29 else 28)
  else if m = 4 ∨ m = 6 ∨ m = 9 ∨ m = 11 then 30
  else 31

/-- Field ranges accepted by Go `time.Parse` for this layout (4-digit year). -/
def GoDateTime.valid (t : GoDateTime) : Bool :=
  t.year ≤ 9999 ∧ 1 ≤ t.month ∧ t.month ≤ 12 ∧
  1 ≤ t.day ∧ t.day ≤ daysInMonth t.month t.year ∧
  t.hour ≤ 23 ∧ t.minute ≤ 59 ∧ t.second ≤ 59

/-- The decimal digit character for `k % 10`. -/
def digitChar (k : Nat) : Char := Char.ofNat (48 + k % 10)

/-- Numeric value of a digit character (Go `c - '0'`). -/
def digitVal (c : Char) : Nat := c.toNat - 48

/-- Is `c` an ASCII decimal digit (Go layout digit check)? -/
def isDigitChar (c : Char) : Bool := '0' ≤ c ∧ c ≤ '9'

/-- Two-digit zero-padded field, as Go `Time.Format` emits for `02`-style. -/
def pad2 (n : Nat) : List Char := [digitChar (n / 10), digitChar n]

/-- Four-digit zero-padded year, as Go `Time.Format` emits for `2006`. -/
def pad4 (n : Nat) : List Char :=
  [digitChar (n / 1000), digitChar (n / 100), digitChar (n / 10), digitChar n]

/-- Go `Time.Format "02-01-2006 15:04:05"`. -/
def formatGoTime (t : GoDateTime) : List Char :=
  pad2 t.day ++ '-' :: pad2 t.month ++ '-' :: pad4 t.year ++
  ' ' :: pad2 t.hour ++ ':' :: pad2 t.minute ++ ':' :: pad2 t.second

/-- Go `time.Parse "02-01-2006 15:04:05" s`: fixed-width digit fields with
the literal separators, then the range validation Go performs. -/
def parseGoTime (s : List Char) : Option GoDateTime :=
  match s with
  | [d1, d2, p1, m1, m2, p2, y1, y2, y3, y4, p3, h1, h2, p4, n1, n2, p5, s1, s2] =>
    if p1 = '-' ∧ p2 = '-' ∧ p3 = ' ' ∧ p4 = ':' ∧ p5 = ':' ∧
       isDigitChar d1 ∧ isDigitChar d2 ∧ isDigitChar m1 ∧ isDigitChar m2 ∧
       isDigitChar y1 ∧ isDigitChar y2 ∧ isDigitChar y3 ∧ isDigitChar y4 ∧
       isDigitChar h1 ∧ isDigitChar h2 ∧ isDigitChar n1 ∧ isDigitChar n2 ∧
       isDigitChar s1 ∧ isDigitChar s2 then
      let day := digitVal d1 * 10 + digitVal d2
      let month := digitVal m1 * 10 + digitVal m2
      let year := ((digitVal y1 * 10 + digitVal y2) * 10 + digitVal y3) * 10 + digitVal y4
      let hour := digitVal h1 * 10 + digitVal h2
      let minute := digitVal n1 * 10 + digitVal n2
      let second := digitVal s1 * 10 + digitVal s2
      if 1 ≤ month ∧ month ≤ 12 ∧ 1 ≤ day ∧ day ≤ daysInMonth month year ∧
         hour ≤ 23 ∧ minute ≤ 59 ∧ second ≤ 59 then
        some ⟨year, month, day, hour, minute, second⟩
      else none
    else none
  | _ => none

/-! ## Message and entry records (`internal/message.go`) -/

/-- Go `LogMessage` (ingress record). -/
structure LogMessage where
  Service : List Char
  Level : LogLevel
  Message : List Char
  Timestamp : GoDateTime
  ClientID : List Char
  Fields : List (List Char × List Char)
deriving DecidableEq, Repr

/-- Go `LogEntry` (parsed file record). -/
structure LogEntry where
  Service : List Char
  Level : LogLevel
  Message : List Char
  Timestamp : GoDateTime
  Raw : List Char
deriving DecidableEq, Repr

/-! ## Text codec (`internal/server.go` `formatMessageAsTXT` / `parseLogEntry`) -/

/-- Lexicographic order on rune lists (Go `sort.Strings` comparison). -/
def charListLe : List Char → List Char → Bool
  | [], _ => true
  | _ :: _, [] => false
  | a :: as, b :: bs => if a = b then charListLe as bs else decide (a < b)

/-- Insert into a sorted list of keys. -/
def insertSorted (k : List Char) : List (List Char) → List (List Char)
  | [] => [k]
  | x :: xs => if charListLe k x then k :: x :: xs else x :: insertSorted k xs

/-- Go `sort.Strings` (any stable correct sort; insertion sort here). -/
def sortStrings (l : List (List Char)) : List (List Char) :=
  l.foldr insertSorted []

/-- Value of a field key in the Go `Fields` map. -/
def lookupField (fields : List (List Char × List Char)) (k : List Char) : List Char :=
  ((fields.find? (fun p => p.1 = k)).map (·.2)).getD []

/-- The `"\n    key: value"` suffix lines `formatMessageAsTXT` appends when
`Fields` is non-empty, keys sorted. -/
def fieldsSuffix (fields : List (List Char × List Char)) : List Char :=
  if fields.length > 0 then
    (sortStrings (fields.map (·.1))).foldl
      (fun acc k => acc ++ '\n' :: ' ' :: ' ' :: ' ' :: ' ' ::
        (k ++ ':' :: ' ' :: lookupField fields k)) []
  else []

/-- Go `formatMessageAsTXT` (`server.go:392`): pad service and level to the
server's tracked widths, format the timestamp, and assemble
`[SERVICE] DD-MM-YYYY HH:MM:SS [LEVEL] "MESSAGE"` plus any field lines. -/
def formatMessageAsTXT (maxServiceLen maxLevelLen : Nat) (msg : LogMessage) :
    List Char :=
  let service := padRight maxServiceLen msg.Service
  let level := padRight maxLevelLen msg.Level.name
  let timeStr := formatGoTime msg.Timestamp
  ('[' :: service ++ ']' :: ' ' :: timeStr ++ ' ' :: '[' :: level ++
    ']' :: ' ' :: '"' :: msg.Message ++ ['"']) ++ fieldsSuffix msg.Fields

/-- Go `parseLogEntry` (`server.go:866`): locate the service bracket, the
fixed-width time, the level bracket, the first quote after it and the last
quote on the line; `none` models every `return LogEntry{}, err` branch. -/
def parseLogEntry (line : List Char) : Option LogEntry :=
  if line.length < 10 then none else
  match goIndexOf ']' line with
  | none => none
  | some serviceEnd =>
    if serviceEnd < 2 then none else
    let service := goTrimSpace ((line.take serviceEnd).drop 1)
    let remaining := goTrimSpace (line.drop (serviceEnd + 1))
    match goIndexOf '[' remaining with
    | none => none
    | some levelStart =>
      let timeStr := goTrimSpace (remaining.take levelStart)
      match parseGoTime timeStr with
      | none => none
      | some timestamp =>
        match goIndexOf ']' (remaining.drop levelStart) with
        | none => none
        | some d =>
          let levelEnd := d + levelStart
          let levelStr := goTrimSpace ((remaining.take levelEnd).drop (levelStart + 1))
          let parsed := ParseLevel levelStr
          if parsed.2 then none else
          match goIndexOf '"' (remaining.drop levelEnd) with
          | none => none
          | some m0 =>
            let messageStart := m0 + levelEnd
            match goLastIndexOf '"' remaining with
            | none => none
            | some messageEnd =>
              if messageEnd ≤ messageStart then none else
              let message := (remaining.take messageEnd).drop (messageStart + 1)
              some ⟨service, parsed.1, message, timestamp, line⟩

/-! ## Severity validity (`levels.go` `IsValid`) -/

/-- Go `LogLevel.IsValid`: `DEBUG ≤ l ≤ PANIC` on the numeric values. -/
def LogLevel.IsValid (l : LogLevel) : Bool := l.toNat ≤ 5

/-- The service-name character class `[A-Z0-9_-]` of the daemon's validator
(`security.go` `AllowedServiceChars`). -/
def isServiceChar (c : Char) : Bool :=
  ('A' ≤ c ∧ c ≤ 'Z') ∨ ('0' ≤ c ∧ c ≤ '9') ∨ c = '_' ∨ c = '-'

/-! ## Filter and query path (`message.go`, `server.go`)

Timestamps parsed from the file and filter bounds are `GoDateTime` values;
Go `Time.Before`/`Time.After` compare instants, which for field-valid
wall-clock values in one zone is the lexicographic order on
(year, month, day, hour, minute, second), embedded through `dtKey`. -/

/-- Injective linearisation of a broken-down time (fields in their valid
ranges), order-isomorphic to the instant order Go compares. -/
def dtKey (t : GoDateTime) : Nat :=
  ((((t.year * 13 + t.month) * 32 + t.day) * 24 + t.hour) * 60 + t.minute)
    * 60 + t.second

/-- Go `Time.Before` at 1-second resolution. -/
def dtBefore (a b : GoDateTime) : Bool := dtKey a < dtKey b

/-- Go `Time.After` at 1-second resolution. -/
def dtAfter (a b : GoDateTime) : Bool := dtKey b < dtKey a

/-- Go `FilterOptions` (`message.go`): optional bounds, optional exact level,
service (empty = unset), limit (`int`). -/
structure FilterOptions where
  StartTime : Option GoDateTime
  EndTime : Option GoDateTime
  Level : Option LogLevel
  Service : List Char
  Limit : Int
deriving DecidableEq, Repr

/-- Go `matchesFilter` (`server.go:934`): the four rejection checks in the
order the code performs them. -/
def matchesFilter (entry : LogEntry) (filter : FilterOptions) : Bool :=
  if (match filter.StartTime with
      | some st => dtBefore entry.Timestamp st
      | none => false) then false
  else if (match filter.EndTime with
      | some et => dtAfter entry.Timestamp et
      | none => false) then false
  else if (match filter.Level with
      | some lv => decide (entry.Level ≠ lv)
      | none => false) then false
  else if filter.Service ≠ [] ∧ entry.Service ≠ filter.Service then false
  else true

/-- The scan loop of Go `getLogEntries` (`server.go:838`): parse each line,
skip failures, test the filter, accumulate, break once the positive limit is
reached. -/
def getLogEntriesLoop (filter : FilterOptions) :
    List (List Char) → List LogEntry → List LogEntry
  | [], entries => entries
  | line :: rest, entries =>
    match parseLogEntry line with
    | none => getLogEntriesLoop filter rest entries
    | some entry =>
      if matchesFilter entry filter = false then
        getLogEntriesLoop filter rest entries
      else
        let entries2 := entries ++ [entry]
        if filter.Limit > 0 ∧ (entries2.length : Int) ≥ filter.Limit then
          entries2
        else getLogEntriesLoop filter rest entries2

/-- Go `getLogEntries` (`server.go:825`) on the lines of the log file. -/
def getLogEntries (filter : FilterOptions) (lines : List (List Char)) :
    List LogEntry :=
  getLogEntriesLoop filter lines []

/-- Modelled from the spec, for the refinement comparison of claim C2: the
subsequence of parseable lines satisfying the filter, truncated to `Limit`
when positive. -/
def specEntries (filter : FilterOptions) (lines : List (List Char)) :
    List LogEntry :=
  let matching :=
    (lines.filterMap parseLogEntry).filter (fun e => matchesFilter e filter)
  if filter.Limit > 0 then matching.take filter.Limit.toNat else matching

/-! ## Security config and rate limiter (`internal/security.go`,
`internal/defaults.go`)

Durations and `time.Time` values are `Int` nanoseconds (Go `time.Time` zero
value sits at 0, real clock readings are positive). -/

/-- Go `SecurityConfig` (`security.go:16`); the `AllowedServiceChars` regex
`^[A-Z0-9_-]+$` is represented by `isServiceChar` applied to every rune. -/
structure SecurityConfig where
  MaxMessageLength : Int
  MaxServiceLength : Int
  RateLimitPerSecond : Int
  BanDuration : Int
deriving DecidableEq, Repr

/-- Go `DefaultSecurityConfig` (`security.go:25`), installed by
`NewLogServer` for both the limiter and the validator. -/
def DefaultSecurityConfig : SecurityConfig :=
  { MaxMessageLength := 4096
    MaxServiceLength := 32
    RateLimitPerSecond := 100
    BanDuration := 5 * 60 * 1000000000 }

/-- Go `DEFAULT_RATE_LIMIT` (`defaults.go:21`). -/
def DEFAULT_RATE_LIMIT : Int := 50

/-- Go `ClientInfo` (`security.go:44`). -/
structure ClientInfo where
  LastAccess : Int
  MessageCount : Int
  BannedUntil : Int
  TotalMessages : Int
deriving DecidableEq, Repr

/-- Go `RateLimiter` (`security.go:36`): per-client records plus the config. -/
structure RateLimiter where
  clients : List (List Char × ClientInfo)
  config : SecurityConfig
deriving DecidableEq, Repr

/-- Go map read `rl.clients[clientID]`. -/
def lookupClient (clients : List (List Char × ClientInfo)) (id : List Char) :
    Option ClientInfo :=
  (clients.find? (fun p => p.1 = id)).map (·.2)

/-- Go map write `rl.clients[clientID] = ci` (update or insert). -/
def setClient (clients : List (List Char × ClientInfo)) (id : List Char)
    (ci : ClientInfo) : List (List Char × ClientInfo) :=
  match clients with
  | [] => [(id, ci)]
  | (k, v) :: rest =>
    if k = id then (id, ci) :: rest else (k, v) :: setClient rest id ci

/-- Go `IsAllowed` (`security.go:71`): the five-step admission computation.
Denied requests leave the map unchanged (banned branch) or record the new
ban; `time.Second` is 1 000 000 000 ns. -/
def IsAllowed (rl : RateLimiter) (clientID : List Char) (now : Int) :
    Bool × RateLimiter :=
  match lookupClient rl.clients clientID with
  | none =>
    (true, { rl with clients := setClient rl.clients clientID ⟨now, 1, 0, 1⟩ })
  | some client =>
    if now < client.BannedUntil then (false, rl)
    else
      let c1 := if now - client.LastAccess ≥ 1000000000 then
          { client with MessageCount := 0, LastAccess := now } else client
      let c2 := { c1 with
                  MessageCount := c1.MessageCount + 1
                  TotalMessages := c1.TotalMessages + 1 }
      let banned := { c2 with BannedUntil := now + rl.config.BanDuration }
      if c2.MessageCount > rl.config.RateLimitPerSecond then
        (false, { rl with clients := setClient rl.clients clientID banned })
      else
        (true, { rl with clients := setClient rl.clients clientID c2 })

/-- Run a sequence of admission attempts for one client, collecting the
verdicts and the final limiter state. -/
def runAllowed (rl : RateLimiter) (id : List Char) :
    List Int → List Bool × RateLimiter
  | [] => ([], rl)
  | t :: ts =>
    let r := IsAllowed rl id t
    let rest := runAllowed r.2 id ts
    (r.1 :: rest.1, rest.2)

/-- Go `ValidateMessage` (`security.go:138`): length bounds (modelled in
runes), the anchored service character class, level validity, NUL check. -/
def ValidateMessage (msg : LogMessage) (config : SecurityConfig) : Bool :=
  if (msg.Message.length : Int) > config.MaxMessageLength then false
  else if (msg.Service.length : Int) > config.MaxServiceLength then false
  else if ¬(msg.Service ≠ [] ∧ msg.Service.all isServiceChar) then false
  else if ¬(msg.Level.IsValid = true) then false
  else if ('\x00') ∈ msg.Message then false
  else true

/-! ## Server state, direct write path and rotation (`internal/server.go`)

The daemon state visible to the modelled operations: the open file's
contents (`none` models a nil handle), the tracked size, archived rotation
generations `<path>.i`, the ingress channel contents, padding widths, the
minimum level and configuration.  Go `float64` config values are `ℚ`;
`int64(x)` truncation toward zero is `goInt64`.  Sizes count runes (the Go
code counts bytes; they agree on ASCII). -/

/-- Go `int64(q)` for a `float64` value: truncation toward zero. -/
def goInt64 (q : ℚ) : Int := Int.tdiv q.num q.den

/-- The `LoggingConfig` fields the modelled operations read
(`config.go`). -/
structure LoggingConfig where
  MaxFileSize : ℚ
  MaxFiles : Int
  BufferSize : Nat
  RestrictServices : Bool
  Services : List (List Char)
deriving DecidableEq, Repr

/-- The `ServerStats` counters the modelled operations touch
(`server.go:70`). -/
structure ServerStats where
  TotalMessages : Int
  FileRotations : Int
deriving DecidableEq, Repr

/-- The modelled `LogServer` state (`server.go:26`). -/
structure LogServer where
  file : Option (List Char)
  currentSize : Int
  gens : List (Int × List Char)
  buffer : List LogMessage
  maxServiceLen : Nat
  maxLevelLen : Nat
  minLevel : LogLevel
  config : LoggingConfig
  securityConfig : SecurityConfig
  stats : ServerStats
deriving DecidableEq, Repr

/-- `int64(s.config.MaxFileSize * 1024 * 1024)` — the rotation threshold in
bytes (`server.go:1070`). -/
def maxSizeBytes (s : LogServer) : Int :=
  goInt64 (s.config.MaxFileSize * 1024 * 1024)

/-- Read generation `i` of the log (0 = the live file, `i ≥ 1` the archived
`<path>.i`), as `os.Stat`/rename see the disk during rotation. -/
def getGen (main : Option (List Char)) (gens : List (Int × List Char))
    (i : Int) : Option (List Char) :=
  if i = 0 then main else (gens.find? (fun p => p.1 = i)).map (·.2)

/-- Write generation `i ≥ 1` (rename target; `os.Rename` overwrites). -/
def setGen (gens : List (Int × List Char)) (i : Int) (contents : List Char) :
    List (Int × List Char) :=
  match gens with
  | [] => [(i, contents)]
  | (k, v) :: rest =>
    if k = i then (i, contents) :: rest else (k, v) :: setGen rest i contents

/-- Remove generation `i ≥ 1` (source of a rename). -/
def delGen (gens : List (Int × List Char)) (i : Int) :
    List (Int × List Char) :=
  gens.filter (fun p => ¬(p.1 = i))

/-- One iteration of the rename loop: if `<path>.i` (or `<path>` for i = 0)
exists, rename it to `<path>.(i+1)` (`server.go:1104`). -/
def renameStep (st : Option (List Char) × List (Int × List Char)) (i : Int) :
    Option (List Char) × List (Int × List Char) :=
  match getGen st.1 st.2 i with
  | none => st
  | some c =>
    if i = 0 then (none, setGen st.2 1 c)
    else (st.1, setGen (delGen st.2 i) (i + 1) c)

/-- The descending rename loop `for i := MaxFiles-2; i >= 0; i--`. -/
def rotateLoop (st : Option (List Char) × List (Int × List Char)) :
    Nat → Option (List Char) × List (Int × List Char)
  | 0 => renameStep st 0
  | n + 1 => rotateLoop (renameStep st ((n : Int) + 1)) n

/-- Go `rotateIfNeeded` (`server.go:1077`): count the rotation; for
`MaxFiles ≤ 1` close and reopen the file truncated and reset the size;
otherwise run the rename loop then reopen truncated. -/
def rotateIfNeeded (s : LogServer) : LogServer :=
  let s1 := { s with stats :=
    { s.stats with FileRotations := s.stats.FileRotations + 1 } }
  if s1.config.MaxFiles ≤ 1 then
    { s1 with file := some [], currentSize := 0 }
  else
    let st := rotateLoop (s1.file, s1.gens) (s1.config.MaxFiles - 2).toNat
    { s1 with file := some [], gens := st.2, currentSize := 0 }

/-- Go `writeMessage` (`server.go:1046`): the direct path.  With a nil handle
it returns; otherwise it appends the formatted line plus newline, adds the
byte count to the tracked size, counts the message, syncs for `ERROR` and
above (a no-op on the state model), and rotates when the tracked size
reaches the threshold. -/
def writeMessage (s : LogServer) (msg : LogMessage) : LogServer :=
  match s.file with
  | none => s
  | some f =>
    let line := formatMessageAsTXT s.maxServiceLen s.maxLevelLen msg ++ ['\n']
    let s2 := { s with
                file := some (f ++ line)
                currentSize := s.currentSize + line.length
                stats := { s.stats with
                           TotalMessages := s.stats.TotalMessages + 1 } }
    if s2.currentSize ≥ maxSizeBytes s2 then rotateIfNeeded s2 else s2

/-- Go `time.Time{}.IsZero()`: the zero wall-clock value (year 1, Jan 1,
midnight) at the model's 1-second resolution. -/
def timeZero : GoDateTime := ⟨1, 1, 1, 0, 0, 0⟩

/-- What `handleLogMessage` did with an incoming message. -/
inductive LogOutcome where
  | rejected
  | enqueued (msg : LogMessage)
  | droppedFull
  | directWrite (msg : LogMessage)
deriving DecidableEq, Repr

/-- Go `handleLogMessage` (`server.go:551`): validate, check the minimum
level and the service allow-list (each failure returns silently with no
response), stamp the client id, default a zero timestamp to `now`, then the
non-blocking send: enqueue if the channel has room, otherwise write `ERROR`
and above directly and drop the rest.  The JSON re-marshal of the payload is
value-preserving and the message pool is identity-irrelevant, so both are
elided. -/
def handleLogMessage (s : LogServer) (clientID : List Char)
    (msg0 : LogMessage) (now : GoDateTime) : LogOutcome × LogServer :=
  if ValidateMessage msg0 s.securityConfig = false then (.rejected, s)
  else if msg0.Level.toNat < s.minLevel.toNat then (.rejected, s)
  else if s.config.RestrictServices ∧ ¬(s.config.Services.contains msg0.Service) then
    (.rejected, s)
  else
    let msg1 := { msg0 with ClientID := clientID }
    let msg2 := if msg1.Timestamp = timeZero then
        { msg1 with Timestamp := now } else msg1
    if s.buffer.length < s.config.BufferSize then
      (.enqueued msg2, { s with buffer := s.buffer ++ [msg2] })
    else if msg2.Level.toNat ≥ LogLevel.ERROR.toNat then
      (.directWrite msg2, writeMessage s msg2)
    else
      (.droppedFull, s)

/-! ## LRU+TTL cache (`internal/cache.go`)

The recency list (most recent first) with the key→node index folded in;
`container/list` move-to-front is erase-plus-cons of the same node. -/

/-- Go `CacheEntry` (`cache.go:23`). -/
structure CacheEntry where
  Key : List Char
  Entry : LogEntry
  Timestamp : Int
deriving DecidableEq, Repr

/-- Go `CacheStats` (`cache.go:30`). -/
structure CacheStats where
  Hits : Int
  Misses : Int
  Evictions : Int
  Size : Int
deriving DecidableEq, Repr

/-- Go `LogCache` (`cache.go:12`). -/
structure LogCache where
  entries : List CacheEntry
  maxSize : Int
  ttl : Int
  stats : CacheStats
deriving DecidableEq, Repr

/-- Go `evictOldest` (`cache.go:121`): drop the back node if any, count an
eviction. -/
def evictOldest (c : LogCache) : LogCache :=
  match c.entries.getLast? with
  | none => c
  | some _ =>
    { c with
      entries := c.entries.dropLast
      stats := { c.stats with
                 Evictions := c.stats.Evictions + 1
                 Size := c.stats.Size - 1 } }

/-- Go `Get` (`cache.go:62`): miss counts; an expired node is removed and
counts a miss; a hit moves the node to the front. -/
def cacheGet (c : LogCache) (key : List Char) (now : Int) :
    Option LogEntry × LogCache :=
  match c.entries.find? (fun n => n.Key = key) with
  | none => (none, { c with stats :=
      { c.stats with Misses := c.stats.Misses + 1 } })
  | some node =>
    if c.ttl > 0 ∧ now - node.Timestamp > c.ttl then
      (none, { c with
               entries := c.entries.eraseP (fun n => n.Key = key)
               stats := { c.stats with
                          Misses := c.stats.Misses + 1
                          Size := c.stats.Size - 1 } })
    else
      (some node.Entry,
       { c with
         entries := node :: c.entries.eraseP (fun n => n.Key = key)
         stats := { c.stats with Hits := c.stats.Hits + 1 } })

/-- Go `Put` (`cache.go:89`): update value and timestamp and move to front
for an existing key; otherwise push front, grow the size, and evict the tail
past `maxSize`. -/
def cachePut (c : LogCache) (key : List Char) (entry : LogEntry) (now : Int) :
    LogCache :=
  match c.entries.find? (fun n => n.Key = key) with
  | some _ =>
    { c with entries :=
        ⟨key, entry, now⟩ :: c.entries.eraseP (fun n => n.Key = key) }
  | none =>
    let c2 := { c with
                entries := ⟨key, entry, now⟩ :: c.entries
                stats := { c.stats with Size := c.stats.Size + 1 } }
    if c2.stats.Size > c2.maxSize then evictOldest c2 else c2

/-- A cache operation of the put/get interface. -/
inductive CacheOp where
  | put (key : List Char) (entry : LogEntry) (now : Int)
  | get (key : List Char) (now : Int)
deriving DecidableEq, Repr

/-- The key an operation addresses. -/
def CacheOp.target : CacheOp → List Char
  | .put k _ _ => k
  | .get k _ => k

/-- Apply one operation to the cache state. -/
def applyCacheOp (c : LogCache) : CacheOp → LogCache
  | .put k e t => cachePut c k e t
  | .get k t => (cacheGet c k t).2

/-- Run a sequence of operations. -/
def runCacheOps (c : LogCache) : List CacheOp → LogCache
  | [] => c
  | op :: rest => runCacheOps (applyCacheOp c op) rest

/-- The distinct keys other than `k` that are inserted as new entries during
a run (the dynamic reading of "other distinct keys inserted" in claim C8). -/
def insertedKeys (c : LogCache) (k : List Char) : List CacheOp → List (List Char)
  | [] => []
  | op :: rest =>
    match op with
    | .put key _ _ =>
      if ¬(key = k) ∧ c.entries.find? (fun n => n.Key = key) = none then
        (key :: insertedKeys (applyCacheOp c op) k rest).dedup
      else insertedKeys (applyCacheOp c op) k rest
    | .get _ _ => insertedKeys (applyCacheOp c op) k rest

/-- The retention invariant for the cache analysis: the entry for `k` put at
`tput` is still present, every key in front of it belongs to the touched set
`T`, keys are pairwise distinct, the tracked size equals the list length, and
the configuration is unchanged. -/
def CacheInv (k : List Char) (v : LogEntry) (tput : Int)
    (T : Finset (List Char)) (msz ttl0 : Int) (c : LogCache) : Prop :=
  (∃ pre suf, c.entries = pre ++ (⟨k, v, tput⟩ : CacheEntry) :: suf ∧
    (pre.map (·.Key)).toFinset ⊆ T) ∧
  (c.entries.map (·.Key)).Nodup ∧
  c.stats.Size = (c.entries.length : Int) ∧
  c.maxSize = msz ∧ c.ttl = ttl0

/-! ## Character facts -/

lemma char_le_iff (a b : Char) : a ≤ b ↔ a.toNat ≤ b.toNat := by
  rw [Char.le_def, UInt32.le_def, BitVec.le_def]
  exact Iff.rfl

lemma char_eq_iff (a b : Char) : a = b ↔ a.toNat = b.toNat := by
  constructor
  · intro h; rw [h]
  · intro h
    exact Char.ext (by rw [UInt32.ext_iff]; exact h)

lemma isServiceChar_toNat {c : Char} (h : isServiceChar c = true) :
    (65 ≤ c.toNat ∧ c.toNat ≤ 90) ∨ (48 ≤ c.toNat ∧ c.toNat ≤ 57) ∨
    c.toNat = 95 ∨ c.toNat = 45 := by
  have hA : ('A').toNat = 65 := rfl
  have hZ : ('Z').toNat = 90 := rfl
  have h0 : ('0').toNat = 48 := rfl
  have h9 : ('9').toNat = 57 := rfl
  have hu : ('_').toNat = 95 := rfl
  have hd : ('-').toNat = 45 := rfl
  simp only [isServiceChar, char_le_iff, char_eq_iff, hA, hZ, h0, h9, hu, hd,
    Bool.or_eq_true, Bool.and_eq_true, decide_eq_true_eq, Bool.decide_and,
    Bool.decide_or] at h
  tauto

lemma goIsSpace_eq_false {c : Char} (h : isServiceChar c = true) :
    goIsSpace c = false := by
  have hn := isServiceChar_toNat h
  simp only [goIsSpace, char_eq_iff, Bool.decide_or, Bool.or_eq_false_iff,
    decide_eq_false_iff_not]
  simp only [show (' ').toNat = 32 from rfl, show ('\t').toNat = 9 from rfl,
    show ('\n').toNat = 10 from rfl, show ('\x0b').toNat = 11 from rfl,
    show ('\x0c').toNat = 12 from rfl, show ('\r').toNat = 13 from rfl,
    show ('\x85').toNat = 133 from rfl, show ('\xa0').toNat = 160 from rfl]
  omega

lemma serviceChar_ne_rbracket {c : Char} (h : isServiceChar c = true) :
    c ≠ ']' := by
  have hn := isServiceChar_toNat h
  simp only [ne_eq, char_eq_iff, show (']').toNat = 93 from rfl]
  omega

lemma digitChar_toNat (k : Nat) : (digitChar k).toNat = 48 + k % 10 := by
  have h : 48 + k % 10 < 0xd800 := by
    have := Nat.mod_lt k (show 0 < 10 by norm_num); omega
  simp only [digitChar, Char.ofNat, Nat.isValidChar, Char.toNat]
  rw [dif_pos (Or.inl h)]
  simp [Char.ofNatAux, UInt32.toNat, UInt32.ofNat', BitVec.toNat_ofNatLt]

lemma isDigitChar_digitChar (k : Nat) : isDigitChar (digitChar k) = true := by
  have := Nat.mod_lt k (show 0 < 10 by norm_num)
  simp only [isDigitChar, char_le_iff, digitChar_toNat,
    show ('0').toNat = 48 from rfl, show ('9').toNat = 57 from rfl,
    Bool.decide_and, Bool.and_eq_true, decide_eq_true_eq]
  omega

lemma digitVal_digitChar (k : Nat) : digitVal (digitChar k) = k % 10 := by
  simp [digitVal, digitChar_toNat]

lemma digitChar_not_space (k : Nat) : goIsSpace (digitChar k) = false := by
  have := Nat.mod_lt k (show 0 < 10 by norm_num)
  simp only [goIsSpace, char_eq_iff, digitChar_toNat, Bool.decide_or,
    Bool.or_eq_false_iff, decide_eq_false_iff_not]
  simp only [show (' ').toNat = 32 from rfl, show ('\t').toNat = 9 from rfl,
    show ('\n').toNat = 10 from rfl, show ('\x0b').toNat = 11 from rfl,
    show ('\x0c').toNat = 12 from rfl, show ('\r').toNat = 13 from rfl,
    show ('\x85').toNat = 133 from rfl, show ('\xa0').toNat = 160 from rfl]
  omega

lemma digitChar_ne_lbracket (k : Nat) : digitChar k ≠ '[' := by
  have := Nat.mod_lt k (show 0 < 10 by norm_num)
  simp only [ne_eq, char_eq_iff, digitChar_toNat,
    show ('[').toNat = 91 from rfl]
  omega

/-! ## String-helper lemmas -/

lemma goIndexOf_append_cons (c : Char) (l r : List Char) (h : c ∉ l) :
    goIndexOf c (l ++ c :: r) = some l.length := by
  induction l with
  | nil => simp [goIndexOf]
  | cons a as ih =>
    simp only [List.mem_cons, not_or] at h
    have hne : ¬(a = c) := fun hac => h.1 hac.symm
    simp only [List.cons_append, goIndexOf, if_neg hne, List.append_eq,
      ih h.2, List.length_cons]
    rfl

lemma goLastIndexOf_concat (c : Char) (l : List Char) :
    goLastIndexOf c (l ++ [c]) = some l.length := by
  unfold goLastIndexOf
  rw [List.reverse_append]
  simp [goIndexOf]

lemma dropWhile_replicate_space (n : Nat) (l : List Char) :
    (List.replicate n ' ' ++ l).dropWhile goIsSpace = l.dropWhile goIsSpace := by
  induction n with
  | zero => simp
  | succ k ih =>
    rw [List.replicate_succ, List.cons_append, List.dropWhile_cons]
    simp only [show goIsSpace ' ' = true from rfl, if_true, ih]

lemma dropWhile_head_nonspace {l : List Char}
    (h : ∀ x, l.head? = some x → goIsSpace x = false) :
    l.dropWhile goIsSpace = l := by
  cases l with
  | nil => rfl
  | cons a as =>
    rw [List.dropWhile_cons, if_neg]
    simp [h a rfl]

lemma goTrimSpace_wrap (a b : Nat) (s : List Char)
    (hh : ∀ x, s.head? = some x → goIsSpace x = false)
    (hl : ∀ x, s.getLast? = some x → goIsSpace x = false) :
    goTrimSpace (List.replicate a ' ' ++ s ++ List.replicate b ' ') = s := by
  unfold goTrimSpace
  rw [List.append_assoc, dropWhile_replicate_space]
  cases s with
  | nil =>
    rw [List.nil_append, ← List.append_nil (List.replicate b ' '),
      dropWhile_replicate_space]
    simp
  | cons c cs =>
    rw [List.cons_append, List.dropWhile_cons, if_neg (by simp [hh c rfl])]
    rw [show c :: (cs ++ List.replicate b ' ') = (c :: cs) ++ List.replicate b ' '
        from rfl,
      List.reverse_append, List.reverse_replicate, dropWhile_replicate_space]
    rw [dropWhile_head_nonspace, List.reverse_reverse]
    intro x hx
    exact hl x (by rwa [List.head?_reverse] at hx)

/-! ## Time codec round trip -/

lemma daysInMonth_le (m y : Nat) : daysInMonth m y ≤ 31 := by
  unfold daysInMonth
  split
  · split <;> omega
  · split <;> omega

theorem parseGoTime_formatGoTime (t : GoDateTime) (h : t.valid = true) :
    parseGoTime (formatGoTime t) = some t := by
  have hb : t.year ≤ 9999 ∧ 1 ≤ t.month ∧ t.month ≤ 12 ∧ 1 ≤ t.day ∧
      t.day ≤ daysInMonth t.month t.year ∧ t.hour ≤ 23 ∧ t.minute ≤ 59 ∧
      t.second ≤ 59 := by
    simpa [GoDateTime.valid, Bool.decide_and, Bool.and_eq_true,
      decide_eq_true_eq] using h
  obtain ⟨hy, hm1, hm2, hd1, hd2, hhr, hmin, hsec⟩ := hb
  have hdm : t.day ≤ 31 := le_trans hd2 (daysInMonth_le _ _)
  have hday : digitVal (digitChar (t.day / 10)) * 10 + digitVal (digitChar t.day)
      = t.day := by rw [digitVal_digitChar, digitVal_digitChar]; omega
  have hmon : digitVal (digitChar (t.month / 10)) * 10 + digitVal (digitChar t.month)
      = t.month := by rw [digitVal_digitChar, digitVal_digitChar]; omega
  have hyear : ((digitVal (digitChar (t.year / 1000)) * 10 +
      digitVal (digitChar (t.year / 100))) * 10 +
      digitVal (digitChar (t.year / 10))) * 10 + digitVal (digitChar t.year)
      = t.year := by
    rw [digitVal_digitChar, digitVal_digitChar, digitVal_digitChar,
      digitVal_digitChar]
    omega
  have hhour : digitVal (digitChar (t.hour / 10)) * 10 + digitVal (digitChar t.hour)
      = t.hour := by rw [digitVal_digitChar, digitVal_digitChar]; omega
  have hmi : digitVal (digitChar (t.minute / 10)) * 10 + digitVal (digitChar t.minute)
      = t.minute := by rw [digitVal_digitChar, digitVal_digitChar]; omega
  have hse : digitVal (digitChar (t.second / 10)) * 10 + digitVal (digitChar t.second)
      = t.second := by rw [digitVal_digitChar, digitVal_digitChar]; omega
  show parseGoTime
      [digitChar (t.day / 10), digitChar t.day, '-',
       digitChar (t.month / 10), digitChar t.month, '-',
       digitChar (t.year / 1000), digitChar (t.year / 100),
       digitChar (t.year / 10), digitChar t.year, ' ',
       digitChar (t.hour / 10), digitChar t.hour, ':',
       digitChar (t.minute / 10), digitChar t.minute, ':',
       digitChar (t.second / 10), digitChar t.second] = some t
  rw [parseGoTime]
  rw [if_pos ⟨rfl, rfl, rfl, rfl, rfl,
    isDigitChar_digitChar _, isDigitChar_digitChar _, isDigitChar_digitChar _,
    isDigitChar_digitChar _, isDigitChar_digitChar _, isDigitChar_digitChar _,
    isDigitChar_digitChar _, isDigitChar_digitChar _, isDigitChar_digitChar _,
    isDigitChar_digitChar _, isDigitChar_digitChar _, isDigitChar_digitChar _,
    isDigitChar_digitChar _, isDigitChar_digitChar _⟩]
  simp only [hday, hmon, hyear, hhour, hmi, hse]
  rw [if_pos ⟨hm1, hm2, hd1, hd2, hhr, hmin, hsec⟩]

/-! ## Codec round trip (claim C1) -/

lemma mem_of_head?_eq {α : Type} {l : List α} {x : α} (h : l.head? = some x) :
    x ∈ l := by
  cases l with
  | nil => simp at h
  | cons a as =>
    simp only [List.head?_cons, Option.some.injEq] at h
    exact h ▸ List.mem_cons_self a as

lemma mem_of_getLast?_eq {α : Type} {l : List α} {x : α}
    (h : l.getLast? = some x) : x ∈ l := by
  rw [← List.head?_reverse] at h
  exact List.mem_reverse.1 (mem_of_head?_eq h)

lemma goTrimSpace_padRight (w : Nat) {s : List Char}
    (h : ∀ c ∈ s, goIsSpace c = false) : goTrimSpace (padRight w s) = s := by
  have h2 := goTrimSpace_wrap 0 (w - s.length) s
    (fun x hx => h x (mem_of_head?_eq hx))
    (fun x hx => h x (mem_of_getLast?_eq hx))
  simpa [padRight] using h2

lemma rbracket_not_mem_padRight {s : List Char} (w : Nat)
    (h : ∀ c ∈ s, isServiceChar c = true) : (']') ∉ padRight w s := by
  intro hmem
  rcases List.mem_append.1 hmem with hs | hs
  · have := isServiceChar_toNat (h _ hs)
    simp only [show (']').toNat = 93 from rfl] at this
    omega
  · exact absurd (List.eq_of_mem_replicate hs) (by decide)

lemma formatGoTime_toNat_le (t : GoDateTime) :
    ∀ c ∈ formatGoTime t, c.toNat ≤ 58 := by
  intro c hc
  have h10 : ∀ k : Nat, (digitChar k).toNat ≤ 58 := fun k => by
    have := Nat.mod_lt k (show 0 < 10 by norm_num)
    rw [digitChar_toNat]; omega
  simp only [formatGoTime, pad2, pad4, List.cons_append, List.nil_append,
    List.mem_cons, List.not_mem_nil, or_false] at hc
  rcases hc with rfl|rfl|rfl|rfl|rfl|rfl|rfl|rfl|rfl|rfl|rfl|rfl|rfl|rfl|rfl|rfl|rfl|rfl|rfl <;>
    first | exact h10 _ | decide

lemma lbracket_not_mem_formatGoTime (t : GoDateTime) :
    ('[') ∉ formatGoTime t := by
  intro hmem
  have := formatGoTime_toNat_le t _ hmem
  simp only [show ('[').toNat = 91 from rfl] at this
  omega

lemma formatGoTime_head (t : GoDateTime) :
    (formatGoTime t).head? = some (digitChar (t.day / 10)) := rfl

lemma formatGoTime_getLast (t : GoDateTime) :
    (formatGoTime t).getLast? = some (digitChar t.second) := rfl

lemma formatGoTime_length (t : GoDateTime) : (formatGoTime t).length = 19 := rfl

/-- The level-name table round trips: parsing a level's own name recovers
the level with no error. -/
lemma ParseLevel_name (l : LogLevel) : ParseLevel l.name = (l, false) := by
  cases l <;> decide

lemma levelName_nonspace (l : LogLevel) : ∀ c ∈ l.name, goIsSpace c = false := by
  cases l <;> decide

lemma levelName_toNat (l : LogLevel) :
    ∀ c ∈ l.name, 65 ≤ c.toNat ∧ c.toNat ≤ 90 := by
  cases l <;> decide

lemma rbracket_not_mem_padLevel (w : Nat) (l : LogLevel) :
    (']') ∉ padRight w l.name := by
  intro hmem
  rcases List.mem_append.1 hmem with hs | hs
  · have := levelName_toNat l _ hs
    simp only [show (']').toNat = 93 from rfl] at this
    omega
  · exact absurd (List.eq_of_mem_replicate hs) (by decide)

lemma goTrimSpace_padLevel (w : Nat) (l : LogLevel) :
    goTrimSpace (padRight w l.name) = l.name :=
  goTrimSpace_padRight w (levelName_nonspace l)

lemma goTrimSpace_pad (n : Nat) {s : List Char}
    (h : ∀ c ∈ s, goIsSpace c = false) :
    goTrimSpace (s ++ List.replicate n ' ') = s := by
  have h2 := goTrimSpace_wrap 0 n s
    (fun x hx => h x (mem_of_head?_eq hx))
    (fun x hx => h x (mem_of_getLast?_eq hx))
  simpa using h2

lemma rbracket_not_mem_pad {s : List Char} (n : Nat)
    (h : ∀ c ∈ s, isServiceChar c = true) :
    (']') ∉ s ++ List.replicate n ' ' := by
  intro hmem
  rcases List.mem_append.1 hmem with hs | hs
  · have := isServiceChar_toNat (h _ hs)
    simp only [show (']').toNat = 93 from rfl] at this
    omega
  · exact absurd (List.eq_of_mem_replicate hs) (by decide)

lemma rbracket_not_mem_padLevel2 (n : Nat) (l : LogLevel) :
    (']') ∉ l.name ++ List.replicate n ' ' := by
  intro hmem
  rcases List.mem_append.1 hmem with hs | hs
  · have := levelName_toNat l _ hs
    simp only [show (']').toNat = 93 from rfl] at this
    omega
  · exact absurd (List.eq_of_mem_replicate hs) (by decide)

lemma parseLogEntry_structured
    (svc : List Char) (spn : Nat) (t : GoDateTime) (l : LogLevel) (lpn : Nat)
    (m : List Char)
    (hsvc_ne : svc ≠ []) (hsvc : ∀ c ∈ svc, isServiceChar c = true)
    (ht : t.valid = true) :
    parseLogEntry ('[' :: (svc ++ List.replicate spn ' ') ++ ']' :: ' ' ::
        formatGoTime t ++ ' ' :: '[' :: (l.name ++ List.replicate lpn ' ') ++
        ']' :: ' ' :: '"' :: m ++ ['"'])
      = some ⟨svc, l, m, t,
          '[' :: (svc ++ List.replicate spn ' ') ++ ']' :: ' ' ::
          formatGoTime t ++ ' ' :: '[' :: (l.name ++ List.replicate lpn ' ') ++
          ']' :: ' ' :: '"' :: m ++ ['"']⟩ := by
  have hsp : 1 ≤ (svc ++ List.replicate spn ' ').length := by
    have : 0 < svc.length := List.length_pos.2 hsvc_ne
    simp only [List.length_append]
    omega
  have hlen : ¬(('[' :: (svc ++ List.replicate spn ' ') ++ ']' :: ' ' ::
      formatGoTime t ++ ' ' :: '[' :: (l.name ++ List.replicate lpn ' ') ++
      ']' :: ' ' :: '"' :: m ++ ['"']).length < 10) := by
    simp [List.length_append, formatGoTime_length]
    omega
  have hidx1 : goIndexOf ']' ('[' :: (svc ++ List.replicate spn ' ') ++ ']' :: ' ' ::
      formatGoTime t ++ ' ' :: '[' :: (l.name ++ List.replicate lpn ' ') ++
      ']' :: ' ' :: '"' :: m ++ ['"'])
      = some ((svc ++ List.replicate spn ' ').length + 1) := by
    have h := goIndexOf_append_cons ']'
      ('[' :: (svc ++ List.replicate spn ' '))
      (' ' :: formatGoTime t ++ ' ' :: '[' :: (l.name ++ List.replicate lpn ' ') ++
        ']' :: ' ' :: '"' :: m ++ ['"'])
      (by
        simp only [List.mem_cons, not_or]
        exact ⟨by decide, rbracket_not_mem_pad spn hsvc⟩)
    simpa using h
  have hserv : goTrimSpace (List.drop 1 (List.take
      ((svc ++ List.replicate spn ' ').length + 1)
      ('[' :: (svc ++ List.replicate spn ' ') ++ ']' :: ' ' ::
        formatGoTime t ++ ' ' :: '[' :: (l.name ++ List.replicate lpn ' ') ++
        ']' :: ' ' :: '"' :: m ++ ['"']))) = svc := by
    rw [show ('[' :: (svc ++ List.replicate spn ' ') ++ ']' :: ' ' ::
        formatGoTime t ++ ' ' :: '[' :: (l.name ++ List.replicate lpn ' ') ++
        ']' :: ' ' :: '"' :: m ++ ['"'])
      = ('[' :: (svc ++ List.replicate spn ' ')) ++ (']' :: ' ' ::
        formatGoTime t ++ ' ' :: '[' :: (l.name ++ List.replicate lpn ' ') ++
        ']' :: ' ' :: '"' :: m ++ ['"']) by simp]
    rw [List.take_left' (by simp)]
    rw [show List.drop 1 ('[' :: (svc ++ List.replicate spn ' '))
      = svc ++ List.replicate spn ' ' by simp]
    exact goTrimSpace_pad spn (fun c hc => goIsSpace_eq_false (hsvc c hc))
  have hrem : goTrimSpace (List.drop ((svc ++ List.replicate spn ' ').length + 1 + 1)
      ('[' :: (svc ++ List.replicate spn ' ') ++ ']' :: ' ' ::
        formatGoTime t ++ ' ' :: '[' :: (l.name ++ List.replicate lpn ' ') ++
        ']' :: ' ' :: '"' :: m ++ ['"']))
      = formatGoTime t ++ ' ' :: '[' :: (l.name ++ List.replicate lpn ' ') ++
        ']' :: ' ' :: '"' :: m ++ ['"'] := by
    rw [show ('[' :: (svc ++ List.replicate spn ' ') ++ ']' :: ' ' ::
        formatGoTime t ++ ' ' :: '[' :: (l.name ++ List.replicate lpn ' ') ++
        ']' :: ' ' :: '"' :: m ++ ['"'])
      = ('[' :: ((svc ++ List.replicate spn ' ') ++ [']'])) ++ (' ' ::
        formatGoTime t ++ ' ' :: '[' :: (l.name ++ List.replicate lpn ' ') ++
        ']' :: ' ' :: '"' :: m ++ ['"']) by simp]
    rw [List.drop_left' (by simp; omega)]
    have hw := goTrimSpace_wrap 1 0
      (formatGoTime t ++ ' ' :: '[' :: (l.name ++ List.replicate lpn ' ') ++
        ']' :: ' ' :: '"' :: m ++ ['"'])
      (by
        intro x hx
        rw [show (formatGoTime t ++ ' ' :: '[' :: (l.name ++ List.replicate lpn ' ') ++
          ']' :: ' ' :: '"' :: m ++ ['"']).head?
          = some (digitChar (t.day / 10)) from rfl] at hx
        cases hx
        exact digitChar_not_space _)
      (by
        intro x hx
        rw [show (formatGoTime t ++ ' ' :: '[' :: (l.name ++ List.replicate lpn ' ') ++
          ']' :: ' ' :: '"' :: m ++ ['"'])
          = (formatGoTime t ++ ' ' :: '[' :: (l.name ++ List.replicate lpn ' ') ++
            ']' :: ' ' :: '"' :: m) ++ ['"'] by simp] at hx
        rw [List.getLast?_concat] at hx
        cases hx
        decide)
    simpa using hw
  unfold parseLogEntry
  rw [if_neg hlen]
  simp only [hidx1]
  rw [if_neg (show ¬((svc ++ List.replicate spn ' ').length + 1 < 2) by omega)]
  rw [hserv, hrem]

  have hidx2 : goIndexOf '[' (formatGoTime t ++ ' ' :: '[' ::
      (l.name ++ List.replicate lpn ' ') ++ ']' :: ' ' :: '"' :: m ++ ['"'])
      = some 20 := by
    rw [show (formatGoTime t ++ ' ' :: '[' :: (l.name ++ List.replicate lpn ' ') ++
        ']' :: ' ' :: '"' :: m ++ ['"'])
      = (formatGoTime t ++ [' ']) ++ ('[' :: ((l.name ++ List.replicate lpn ' ') ++
        ']' :: ' ' :: '"' :: m ++ ['"'])) by simp]
    have h := goIndexOf_append_cons '[' (formatGoTime t ++ [' '])
      ((l.name ++ List.replicate lpn ' ') ++ ']' :: ' ' :: '"' :: m ++ ['"'])
      (by
        intro hmem
        rcases List.mem_append.1 hmem with hs | hs
        · exact lbracket_not_mem_formatGoTime t hs
        · simp at hs)
    simpa [formatGoTime_length] using h
  have htime : goTrimSpace (List.take 20 (formatGoTime t ++ ' ' :: '[' ::
      (l.name ++ List.replicate lpn ' ') ++ ']' :: ' ' :: '"' :: m ++ ['"']))
      = formatGoTime t := by
    rw [show (formatGoTime t ++ ' ' :: '[' :: (l.name ++ List.replicate lpn ' ') ++
        ']' :: ' ' :: '"' :: m ++ ['"'])
      = (formatGoTime t ++ [' ']) ++ ('[' :: ((l.name ++ List.replicate lpn ' ') ++
        ']' :: ' ' :: '"' :: m ++ ['"'])) by simp]
    rw [List.take_left' (by simp [formatGoTime_length])]
    have hw := goTrimSpace_wrap 0 1 (formatGoTime t)
      (by
        intro x hx
        rw [formatGoTime_head] at hx
        cases hx
        exact digitChar_not_space _)
      (by
        intro x hx
        rw [formatGoTime_getLast] at hx
        cases hx
        exact digitChar_not_space _)
    simpa using hw
  have hdrop2 : List.drop 20 (formatGoTime t ++ ' ' :: '[' ::
      (l.name ++ List.replicate lpn ' ') ++ ']' :: ' ' :: '"' :: m ++ ['"'])
      = '[' :: ((l.name ++ List.replicate lpn ' ') ++
        ']' :: ' ' :: '"' :: m ++ ['"']) := by
    rw [show (formatGoTime t ++ ' ' :: '[' :: (l.name ++ List.replicate lpn ' ') ++
        ']' :: ' ' :: '"' :: m ++ ['"'])
      = (formatGoTime t ++ [' ']) ++ ('[' :: ((l.name ++ List.replicate lpn ' ') ++
        ']' :: ' ' :: '"' :: m ++ ['"'])) by simp]
    rw [List.drop_left' (by simp [formatGoTime_length])]
  have hidx3 : goIndexOf ']' ('[' :: ((l.name ++ List.replicate lpn ' ') ++
      ']' :: ' ' :: '"' :: m ++ ['"']))
      = some ((l.name ++ List.replicate lpn ' ').length + 1) := by
    have h := goIndexOf_append_cons ']'
      ('[' :: (l.name ++ List.replicate lpn ' '))
      (' ' :: '"' :: m ++ ['"'])
      (by
        simp only [List.mem_cons, not_or]
        exact ⟨by decide, rbracket_not_mem_padLevel2 lpn l⟩)
    simpa using h
  simp only [hidx2]
  rw [htime, parseGoTime_formatGoTime t ht]
  simp only [hdrop2, hidx3]

  have hlevel : goTrimSpace (List.drop (20 + 1)
      (List.take ((l.name ++ List.replicate lpn ' ').length + 1 + 20)
        (formatGoTime t ++ ' ' :: '[' :: (l.name ++ List.replicate lpn ' ') ++
          ']' :: ' ' :: '"' :: m ++ ['"']))) = l.name := by
    rw [show (formatGoTime t ++ ' ' :: '[' :: (l.name ++ List.replicate lpn ' ') ++
        ']' :: ' ' :: '"' :: m ++ ['"'])
      = (formatGoTime t ++ ' ' :: '[' :: (l.name ++ List.replicate lpn ' ')) ++
        (']' :: ' ' :: '"' :: m ++ ['"']) by simp]
    rw [List.take_left' (by simp [formatGoTime_length]; omega)]
    rw [show (formatGoTime t ++ ' ' :: '[' :: (l.name ++ List.replicate lpn ' '))
      = (formatGoTime t ++ [' ', '[']) ++ (l.name ++ List.replicate lpn ' ')
      by simp]
    rw [List.drop_left' (by simp [formatGoTime_length])]
    exact goTrimSpace_pad lpn (levelName_nonspace l)
  have hq : goIndexOf '"' (List.drop
      ((l.name ++ List.replicate lpn ' ').length + 1 + 20)
      (formatGoTime t ++ ' ' :: '[' :: (l.name ++ List.replicate lpn ' ') ++
        ']' :: ' ' :: '"' :: m ++ ['"'])) = some 2 := by
    rw [show (formatGoTime t ++ ' ' :: '[' :: (l.name ++ List.replicate lpn ' ') ++
        ']' :: ' ' :: '"' :: m ++ ['"'])
      = (formatGoTime t ++ ' ' :: '[' :: (l.name ++ List.replicate lpn ' ')) ++
        (']' :: ' ' :: '"' :: m ++ ['"']) by simp]
    rw [List.drop_left' (by simp [formatGoTime_length]; omega)]
    simp [goIndexOf]
  have hlast : goLastIndexOf '"'
      (formatGoTime t ++ ' ' :: '[' :: (l.name ++ List.replicate lpn ' ') ++
        ']' :: ' ' :: '"' :: m ++ ['"'])
      = some ((l.name ++ List.replicate lpn ' ').length + m.length + 24) := by
    rw [show (formatGoTime t ++ ' ' :: '[' :: (l.name ++ List.replicate lpn ' ') ++
        ']' :: ' ' :: '"' :: m ++ ['"'])
      = (formatGoTime t ++ ' ' :: '[' :: (l.name ++ List.replicate lpn ' ') ++
        ']' :: ' ' :: '"' :: m) ++ ['"'] by simp]
    rw [goLastIndexOf_concat]
    congr 1
    simp [formatGoTime_length]
    omega
  have hmsg : List.drop (2 + ((l.name ++ List.replicate lpn ' ').length + 1 + 20) + 1)
      (List.take ((l.name ++ List.replicate lpn ' ').length + m.length + 24)
        (formatGoTime t ++ ' ' :: '[' :: (l.name ++ List.replicate lpn ' ') ++
          ']' :: ' ' :: '"' :: m ++ ['"'])) = m := by
    rw [show (formatGoTime t ++ ' ' :: '[' :: (l.name ++ List.replicate lpn ' ') ++
        ']' :: ' ' :: '"' :: m ++ ['"'])
      = ((formatGoTime t ++ ' ' :: '[' :: (l.name ++ List.replicate lpn ' ') ++
        [']', ' ', '"']) ++ m) ++ ['"'] by simp]
    rw [List.take_left' (by simp [formatGoTime_length]; omega)]
    rw [List.drop_left' (by simp [formatGoTime_length]; omega)]
  rw [hlevel]
  rw [if_neg (show ¬((ParseLevel l.name).2 = true) by rw [ParseLevel_name]; simp)]
  simp only [hq, hlast]
  rw [if_neg (by omega)]
  rw [hmsg, ParseLevel_name]

/-! ## Claim C1 -/

/-- Claim C1: for every log entry whose message contains no newline, whose
service is a non-empty string over the anchored class `[A-Z0-9_-]+`, whose
timestamp is a field-valid wall-clock value, and which carries no extra
structured fields, parsing the line produced by `formatMessageAsTXT`
(at any pad widths) with `parseLogEntry` recovers the same service,
severity, message and timestamp — the padding is stripped by the parser and
the timestamp round trips at the codec's 1-second resolution. -/
theorem c1_format_parse_round_trip (wS wL : Nat) (msg : LogMessage)
    (hne : msg.Service ≠ [])
    (hcls : ∀ c ∈ msg.Service, isServiceChar c = true)
    (ht : msg.Timestamp.valid = true)
    (_hnl : ('\n') ∉ msg.Message)
    (hf : msg.Fields = []) :
    parseLogEntry (formatMessageAsTXT wS wL msg)
      = some ⟨msg.Service, msg.Level, msg.Message, msg.Timestamp,
          formatMessageAsTXT wS wL msg⟩ := by
  have hfmt : formatMessageAsTXT wS wL msg
      = '[' :: (msg.Service ++ List.replicate (wS - msg.Service.length) ' ') ++
        ']' :: ' ' :: formatGoTime msg.Timestamp ++ ' ' :: '[' ::
        (msg.Level.name ++ List.replicate (wL - msg.Level.name.length) ' ') ++
        ']' :: ' ' :: '"' :: msg.Message ++ ['"'] := by
    simp [formatMessageAsTXT, padRight, hf, fieldsSuffix]
  rw [hfmt]
  exact parseLogEntry_structured msg.Service _ msg.Timestamp msg.Level _
    msg.Message hne hcls ht

/-- Claim C1 witness: the S1 instance.  `{service = API, level = INFO,
ts = 2024-01-15 14:30:23, msg = hello}` at pad widths 4/5 formats to
exactly `[API ] 15-01-2024 14:30:23 [INFO ] "hello"`, and parsing that line
returns the same fields. -/
theorem c1_format_parse_round_trip_witness :
    formatMessageAsTXT 4 5
        ⟨str "API", .INFO, str "hello", ⟨2024, 1, 15, 14, 30, 23⟩, [], []⟩
      = str "[API ] 15-01-2024 14:30:23 [INFO ] \"hello\"" ∧
    parseLogEntry (str "[API ] 15-01-2024 14:30:23 [INFO ] \"hello\"")
      = some ⟨str "API", .INFO, str "hello", ⟨2024, 1, 15, 14, 30, 23⟩,
          str "[API ] 15-01-2024 14:30:23 [INFO ] \"hello\""⟩ := by
  have hfmt : formatMessageAsTXT 4 5
      ⟨str "API", .INFO, str "hello", ⟨2024, 1, 15, 14, 30, 23⟩, [], []⟩
      = str "[API ] 15-01-2024 14:30:23 [INFO ] \"hello\"" := by decide
  refine ⟨hfmt, ?_⟩
  have h := c1_format_parse_round_trip 4 5
    ⟨str "API", .INFO, str "hello", ⟨2024, 1, 15, 14, 30, 23⟩, [], []⟩
    (by decide) (by decide) (by decide) (by decide) rfl
  rw [hfmt] at h
  exact h

/-! ## Claim C4 -/

/-- Claim C4 counterexample: the line `[  ] 26-01-2025 12:00:00 [INFO ]
"msg"` has a whitespace-only service field, so its trimmed service substring
is empty — yet `parseLogEntry` succeeds and returns an entry with an empty
service name instead of failing as the claim states. -/
theorem c4_counterexample :
    goTrimSpace (str "  ") = [] ∧
    parseLogEntry (str "[  ] 26-01-2025 12:00:00 [INFO ] \"msg\"")
      = some ⟨[], .INFO, str "msg", ⟨2025, 1, 26, 12, 0, 0⟩,
          str "[  ] 26-01-2025 12:00:00 [INFO ] \"msg\""⟩ := by
  constructor
  · decide
  · decide

/-- Claim C4 (amended): the parser rejects a line for the service bracket
only when the first `]` is missing or occurs before index 2 (an empty
bracket pair `[]` or a line not starting with `[`); a whitespace-only
service field of width at least one parses successfully with an empty
service name (see the counterexample). -/
theorem c4_parser_service_rejection (line : List Char)
    (h : goIndexOf ']' line = none ∨
      ∃ j, goIndexOf ']' line = some j ∧ j < 2) :
    parseLogEntry line = none := by
  unfold parseLogEntry
  by_cases hl : line.length < 10
  · rw [if_pos hl]
  · rw [if_neg hl]
    rcases h with h | ⟨j, hj, hj2⟩
    · simp only [h]
    · simp only [hj, if_pos hj2]

/-- Claim C4 witness: the line with an empty service bracket `[]` is
rejected. -/
theorem c4_parser_service_rejection_witness :
    parseLogEntry (str "[] 26-01-2025 12:00:00 [INFO ] \"msg\"") = none :=
  c4_parser_service_rejection _ (Or.inr ⟨1, by decide, by decide⟩)

/-! ## Claim C9 -/

/-- Claim C9: for every input whose trimmed, upper-cased form is none of
DEBUG, INFO, WARN, ERROR, FATAL, PANIC, `ParseLevel` reports an error and
returns `INFO` as its result value, so a caller that ignores the error
observes `INFO` as the effective fallback level. -/
theorem c9_parse_level_unknown (s : List Char)
    (h : goToUpper (goTrimSpace s) ∉
      [str "DEBUG", str "INFO", str "WARN", str "ERROR", str "FATAL",
       str "PANIC"]) :
    ParseLevel s = (.INFO, true) := by
  simp only [List.mem_cons, List.not_mem_nil, or_false, not_or] at h
  obtain ⟨h1, h2, h3, h4, h5, h6⟩ := h
  have hfind : levelValues.find?
      (fun p => p.1 = goToUpper (goTrimSpace s)) = none := by
    apply List.find?_eq_none.2
    intro p hp
    simp only [levelValues, List.mem_cons, List.not_mem_nil, or_false] at hp
    rcases hp with rfl | rfl | rfl | rfl | rfl | rfl <;>
      · simp only [decide_eq_true_eq]
        intro he
        first
        | exact h1 he.symm
        | exact h2 he.symm
        | exact h3 he.symm
        | exact h4 he.symm
        | exact h5 he.symm
        | exact h6 he.symm
  unfold ParseLevel
  rw [hfind]

/-- Claim C9 witness: `" trace "` is not a level name, so parsing yields
`INFO` plus an error. -/
theorem c9_parse_level_unknown_witness :
    ParseLevel (str " trace ") = (.INFO, true) :=
  c9_parse_level_unknown _ (by decide)

/-! ## Claim C3 -/

/-- Claim C3 (evaluation of the code at the failing input): the security
configuration the daemon installs (`DefaultSecurityConfig`, wired in by
`NewLogServer`) sets the admission limit to 100 messages per second — not
the 50 the claim states and `defaults.go` declares as `DEFAULT_RATE_LIMIT`
— while the ban duration is 5 minutes as claimed. -/
theorem c3_default_security_config_values :
    DefaultSecurityConfig.RateLimitPerSecond = 100 ∧
    DefaultSecurityConfig.BanDuration = 5 * 60 * 1000000000 ∧
    DEFAULT_RATE_LIMIT = 50 ∧
    DefaultSecurityConfig.RateLimitPerSecond ≠ DEFAULT_RATE_LIMIT :=
  ⟨rfl, rfl, rfl, by decide⟩

/-! ## Claim C5 -/

/-- Claim C5: with limit 2 and ban 100 ms, a previously unknown client
making three admission attempts inside one one-second window is admitted,
admitted, then denied, and the third attempt records
`banned_until = t3 + 100 ms` (final limiter state shown explicitly, with
`last_seen` still `t1` and counters at 3).  Every attempt while
`now < banned_until` is denied without changing the state, and an attempt at
or after the ban expiry that is also at least one second past `last_seen`
is admitted, because the per-second counter resets first. -/
theorem c5_rate_limiter_scenario (id : List Char) (t1 t2 t3 : Int)
    (h0 : 0 ≤ t1) (h12 : t1 ≤ t2) (h23 : t2 ≤ t3)
    (hwin : t3 - t1 < 1000000000) :
    (runAllowed ⟨[], ⟨4096, 32, 2, 100000000⟩⟩ id [t1, t2, t3]).1
      = [true, true, false] ∧
    (runAllowed ⟨[], ⟨4096, 32, 2, 100000000⟩⟩ id [t1, t2, t3]).2
      = ⟨[(id, ⟨t1, 3, t3 + 100000000, 3⟩)], ⟨4096, 32, 2, 100000000⟩⟩ ∧
    (∀ t : Int, t < t3 + 100000000 →
      IsAllowed ⟨[(id, ⟨t1, 3, t3 + 100000000, 3⟩)], ⟨4096, 32, 2, 100000000⟩⟩
        id t
      = (false, ⟨[(id, ⟨t1, 3, t3 + 100000000, 3⟩)],
          ⟨4096, 32, 2, 100000000⟩⟩)) ∧
    (∀ t : Int, t3 + 100000000 ≤ t → 1000000000 ≤ t - t1 →
      (IsAllowed ⟨[(id, ⟨t1, 3, t3 + 100000000, 3⟩)],
        ⟨4096, 32, 2, 100000000⟩⟩ id t).1 = true) := by
  have hstep1 : IsAllowed ⟨[], ⟨4096, 32, 2, 100000000⟩⟩ id t1
      = (true, ⟨[(id, ⟨t1, 1, 0, 1⟩)], ⟨4096, 32, 2, 100000000⟩⟩) := by
    simp [IsAllowed, lookupClient, setClient]
  have hstep2 : IsAllowed ⟨[(id, ⟨t1, 1, 0, 1⟩)], ⟨4096, 32, 2, 100000000⟩⟩ id t2
      = (true, ⟨[(id, ⟨t1, 2, 0, 2⟩)], ⟨4096, 32, 2, 100000000⟩⟩) := by
    unfold IsAllowed
    simp only [show lookupClient [(id, ⟨t1, 1, 0, 1⟩)] id = some ⟨t1, 1, 0, 1⟩
        by simp [lookupClient],
      if_neg (show ¬(t2 < (0 : Int)) by omega),
      if_neg (show ¬(t2 - t1 ≥ 1000000000) by omega)]
    norm_num [setClient]
  have hstep3 : IsAllowed ⟨[(id, ⟨t1, 2, 0, 2⟩)], ⟨4096, 32, 2, 100000000⟩⟩ id t3
      = (false, ⟨[(id, ⟨t1, 3, t3 + 100000000, 3⟩)], ⟨4096, 32, 2, 100000000⟩⟩) := by
    unfold IsAllowed
    simp only [show lookupClient [(id, ⟨t1, 2, 0, 2⟩)] id = some ⟨t1, 2, 0, 2⟩
        by simp [lookupClient],
      if_neg (show ¬(t3 < (0 : Int)) by omega),
      if_neg (show ¬(t3 - t1 ≥ 1000000000) by omega)]
    norm_num [setClient]
  have hdeny : ∀ t : Int, t < t3 + 100000000 →
      IsAllowed ⟨[(id, ⟨t1, 3, t3 + 100000000, 3⟩)], ⟨4096, 32, 2, 100000000⟩⟩
        id t
      = (false, ⟨[(id, ⟨t1, 3, t3 + 100000000, 3⟩)],
          ⟨4096, 32, 2, 100000000⟩⟩) := by
    intro t htl
    unfold IsAllowed
    simp only [show lookupClient [(id, ⟨t1, 3, t3 + 100000000, 3⟩)] id
        = some ⟨t1, 3, t3 + 100000000, 3⟩ by simp [lookupClient],
      if_pos htl]
  have hre : ∀ t : Int, t3 + 100000000 ≤ t → 1000000000 ≤ t - t1 →
      (IsAllowed ⟨[(id, ⟨t1, 3, t3 + 100000000, 3⟩)],
        ⟨4096, 32, 2, 100000000⟩⟩ id t).1 = true := by
    intro t hb hs
    unfold IsAllowed
    simp only [show lookupClient [(id, ⟨t1, 3, t3 + 100000000, 3⟩)] id
        = some ⟨t1, 3, t3 + 100000000, 3⟩ by simp [lookupClient],
      if_neg (show ¬(t < t3 + 100000000) by omega),
      if_pos (show t - t1 ≥ 1000000000 by omega)]
    norm_num
  refine ⟨?_, ?_, hdeny, hre⟩ <;> simp [runAllowed, hstep1, hstep2, hstep3]


/-- Claim C5 witness: the scenario at `t1 = t2 = t3 = 0`, a denied attempt
at 50 ms and an admitted attempt at 1 s. -/
theorem c5_rate_limiter_scenario_witness :
    (runAllowed ⟨[], ⟨4096, 32, 2, 100000000⟩⟩ (str "client_1") [0, 0, 0]).1
      = [true, true, false] ∧
    IsAllowed ⟨[(str "client_1", ⟨0, 3, 100000000, 3⟩)],
        ⟨4096, 32, 2, 100000000⟩⟩ (str "client_1") 50000000
      = (false, ⟨[(str "client_1", ⟨0, 3, 100000000, 3⟩)],
          ⟨4096, 32, 2, 100000000⟩⟩) ∧
    (IsAllowed ⟨[(str "client_1", ⟨0, 3, 100000000, 3⟩)],
        ⟨4096, 32, 2, 100000000⟩⟩ (str "client_1") 1000000000).1 = true := by
  have h := c5_rate_limiter_scenario (str "client_1") 0 0 0 (by decide)
    (by decide) (by decide) (by decide)
  refine ⟨h.1, ?_, ?_⟩
  · have h2 := h.2.2.1 50000000 (by decide)
    simpa using h2
  · have h3 := h.2.2.2 1000000000 (by decide) (by decide)
    simpa using h3

lemma maxSizeBytes_update (s : LogServer) (fl : Option (List Char))
    (cs : Int) (st : ServerStats) :
    maxSizeBytes { s with file := fl, currentSize := cs, stats := st }
      = maxSizeBytes s := rfl

/-- Computation of `handleLogMessage` past the three silent rejection
gates: the message is stamped with the client id, a zero timestamp is
replaced by `now`, and the non-blocking send decides between enqueue,
direct write (ERROR and above) and a silent drop. -/
lemma handleLogMessage_admitted (s : LogServer) (cid : List Char)
    (msg : LogMessage) (now : GoDateTime)
    (hv : ValidateMessage msg s.securityConfig = true)
    (hl : ¬(msg.Level.toNat < s.minLevel.toNat))
    (hr : ¬(s.config.RestrictServices ∧
        ¬(s.config.Services.contains msg.Service))) :
    handleLogMessage s cid msg now =
      (let m : LogMessage := { msg with
          ClientID := cid
          Timestamp := if msg.Timestamp = timeZero then now
                       else msg.Timestamp }
       if s.buffer.length < s.config.BufferSize then
         (.enqueued m, { s with buffer := s.buffer ++ [m] })
       else if m.Level.toNat ≥ LogLevel.ERROR.toNat then
         (.directWrite m, writeMessage s m)
       else (.droppedFull, s)) := by
  simp only [handleLogMessage,
    if_neg (show ¬(ValidateMessage msg s.securityConfig = false) by simp [hv]),
    if_neg hl, if_neg hr]
  by_cases hts : msg.Timestamp = timeZero
  · simp [hts]
  · simp [hts]
/-! ## Claim C10 -/

/-- Claim C10: a message that passes validation, the minimum-level check and
the allow-list is never silently rejected, and whatever the daemon goes on
to enqueue or write directly is exactly the incoming message with the
client id stamped and — only when the client-supplied timestamp is the zero
value — the timestamp replaced by the admission time `now`; a non-zero
timestamp is kept unchanged. -/
theorem c10_timestamp_defaulting (s : LogServer) (cid : List Char) (msg : LogMessage)
    (now : GoDateTime)
    (hv : ValidateMessage msg s.securityConfig = true)
    (hl : ¬(msg.Level.toNat < s.minLevel.toNat))
    (hr : ¬(s.config.RestrictServices ∧
        ¬(s.config.Services.contains msg.Service))) :
    (handleLogMessage s cid msg now).1 ≠ .rejected ∧
    ∀ m : LogMessage,
      ((handleLogMessage s cid msg now).1 = .enqueued m ∨
        (handleLogMessage s cid msg now).1 = .directWrite m) →
      m = { msg with
            ClientID := cid
            Timestamp := if msg.Timestamp = timeZero then now
                         else msg.Timestamp } := by
  rw [handleLogMessage_admitted s cid msg now hv hl hr]
  by_cases hb : s.buffer.length < s.config.BufferSize
  · simp only [if_pos hb]
    refine ⟨by simp, ?_⟩
    intro m hm
    rcases hm with hm | hm
    · simp only [LogOutcome.enqueued.injEq] at hm
      exact hm.symm
    · simp at hm
  · simp only [if_neg hb]
    by_cases he : ({ msg with
        ClientID := cid
        Timestamp := if msg.Timestamp = timeZero then now
                     else msg.Timestamp } : LogMessage).Level.toNat
        ≥ LogLevel.ERROR.toNat
    · simp only [if_pos he]
      refine ⟨by simp, ?_⟩
      intro m hm
      rcases hm with hm | hm
      · simp at hm
      · simp only [LogOutcome.directWrite.injEq] at hm
        exact hm.symm
    · simp only [if_neg he]
      refine ⟨by simp, ?_⟩
      intro m hm
      rcases hm with hm | hm <;> simp at hm

/-! ## Claim C6 -/

/-- Claim C6: when the ingress channel is full at admission time, a message
below ERROR is dropped silently — the returned state is exactly the
pre-state, so nothing is written and no response is produced — while a
message at ERROR or above takes the direct path (`write_message`): with the
file open and the write below the rotation threshold, the post-state's file
is the old contents plus the formatted line, so the message is present in
the file on the next read.  `m` is the admitted message (client id stamped,
zero timestamp defaulted). -/
theorem c6_backpressure_policy (s : LogServer) (cid : List Char) (msg m : LogMessage)
    (now : GoDateTime) (f : List Char)
    (hv : ValidateMessage msg s.securityConfig = true)
    (hl : ¬(msg.Level.toNat < s.minLevel.toNat))
    (hr : ¬(s.config.RestrictServices ∧
        ¬(s.config.Services.contains msg.Service)))
    (hfull : ¬(s.buffer.length < s.config.BufferSize))
    (hm : m = { msg with
        ClientID := cid
        Timestamp := if msg.Timestamp = timeZero then now
                     else msg.Timestamp }) :
    (msg.Level.toNat < LogLevel.ERROR.toNat →
      handleLogMessage s cid msg now = (.droppedFull, s)) ∧
    (LogLevel.ERROR.toNat ≤ msg.Level.toNat →
      s.file = some f →
      s.currentSize +
          ((formatMessageAsTXT s.maxServiceLen s.maxLevelLen m).length + 1)
        < maxSizeBytes s →
      handleLogMessage s cid msg now
        = (.directWrite m,
           { s with
             file := some (f ++
               (formatMessageAsTXT s.maxServiceLen s.maxLevelLen m ++ ['\n']))
             currentSize := s.currentSize +
               (formatMessageAsTXT s.maxServiceLen s.maxLevelLen m
                 ++ ['\n']).length
             stats := { s.stats with
                        TotalMessages := s.stats.TotalMessages + 1 } })) := by
  have hlev : m.Level = msg.Level := by rw [hm]
  rw [handleLogMessage_admitted s cid msg now hv hl hr]
  simp only [← hm, if_neg hfull]
  constructor
  · intro hlt
    rw [if_neg (by omega)]
  · intro hge hfile hth
    rw [if_pos (by omega)]
    unfold writeMessage
    simp only [hfile]
    have hlen : (formatMessageAsTXT s.maxServiceLen s.maxLevelLen m
        ++ ['\n']).length
        = (formatMessageAsTXT s.maxServiceLen s.maxLevelLen m).length + 1 := by
      simp
    rw [if_neg (by
      simp only [hlen, maxSizeBytes_update]
      omega)]

/-! ## Claim C7 -/

/-- Claim C7: with `max_files ≤ 1`, an appending write that brings the
tracked size to at least `max_file_size × 1 048 576` bytes (truncated to
`int64` as the code does) triggers rotation, and that rotation reopens the
file truncated — the file exists and is empty — resets the tracked size to
0, and increments the rotation counter. -/
theorem c7_truncate_rotation (s : LogServer) (msg : LogMessage) (f : List Char)
    (hfile : s.file = some f)
    (hmf : s.config.MaxFiles ≤ 1)
    (hth : maxSizeBytes s ≤ s.currentSize +
      ((formatMessageAsTXT s.maxServiceLen s.maxLevelLen msg).length + 1)) :
    writeMessage s msg = { s with
      file := some []
      currentSize := 0
      stats := { TotalMessages := s.stats.TotalMessages + 1
                 FileRotations := s.stats.FileRotations + 1 } } := by
  unfold writeMessage
  simp only [hfile]
  rw [if_pos (by
    simp only [maxSizeBytes_update, List.length_append, List.length_cons,
      List.length_nil]
    push_cast
    omega)]
  unfold rotateIfNeeded
  rw [if_pos hmf]



/-- Claim C10 witness: a message with the zero timestamp on a quiet server
passes admission (it is not rejected). -/
theorem c10_timestamp_defaulting_witness :
    (handleLogMessage
      ⟨some [], 0, [], [], 4, 5, .DEBUG, ⟨1, 3, 10, false, []⟩,
        DefaultSecurityConfig, ⟨0, 0⟩⟩
      (str "client_1")
      ⟨str "API", .INFO, str "hi", timeZero, [], []⟩
      ⟨2025, 1, 26, 12, 0, 0⟩).1 ≠ .rejected :=
  (c10_timestamp_defaulting _ _ _ _ (by decide) (by decide) (by decide)).1

/-- Claim C6 witness: with a zero-capacity channel, an INFO message is
dropped with the state unchanged, and an ERROR message lands in the file. -/
theorem c6_backpressure_policy_witness :
    handleLogMessage
        ⟨some [], 0, [], [], 4, 5, .DEBUG, ⟨1, 3, 0, false, []⟩,
          DefaultSecurityConfig, ⟨0, 0⟩⟩
        (str "client_1")
        ⟨str "API", .INFO, str "hi", ⟨2025, 1, 26, 12, 0, 0⟩, [], []⟩
        ⟨2025, 1, 26, 12, 0, 0⟩
      = (.droppedFull,
         ⟨some [], 0, [], [], 4, 5, .DEBUG, ⟨1, 3, 0, false, []⟩,
           DefaultSecurityConfig, ⟨0, 0⟩⟩) ∧
    (handleLogMessage
        ⟨some [], 0, [], [], 4, 5, .DEBUG, ⟨1, 3, 0, false, []⟩,
          DefaultSecurityConfig, ⟨0, 0⟩⟩
        (str "client_1")
        ⟨str "API", .ERROR, str "boom", ⟨2025, 1, 26, 12, 0, 0⟩, [], []⟩
        ⟨2025, 1, 26, 12, 0, 0⟩).2.file
      = some (str "[API ] 26-01-2025 12:00:00 [ERROR] \"boom\"" ++ ['\n']) := by
  constructor
  · exact (c6_backpressure_policy
      ⟨some [], 0, [], [], 4, 5, .DEBUG, ⟨1, 3, 0, false, []⟩,
        DefaultSecurityConfig, ⟨0, 0⟩⟩
      (str "client_1")
      ⟨str "API", .INFO, str "hi", ⟨2025, 1, 26, 12, 0, 0⟩, [], []⟩
      ⟨str "API", .INFO, str "hi", ⟨2025, 1, 26, 12, 0, 0⟩,
        str "client_1", []⟩
      ⟨2025, 1, 26, 12, 0, 0⟩ []
      (by decide) (by decide) (by decide) (by decide) (by decide)).1 (by decide)
  · have h := (c6_backpressure_policy
      ⟨some [], 0, [], [], 4, 5, .DEBUG, ⟨1, 3, 0, false, []⟩,
        DefaultSecurityConfig, ⟨0, 0⟩⟩
      (str "client_1")
      ⟨str "API", .ERROR, str "boom", ⟨2025, 1, 26, 12, 0, 0⟩, [], []⟩
      ⟨str "API", .ERROR, str "boom", ⟨2025, 1, 26, 12, 0, 0⟩,
        str "client_1", []⟩
      ⟨2025, 1, 26, 12, 0, 0⟩ []
      (by decide) (by decide) (by decide) (by decide) (by decide)).2
      (by decide) rfl
      (by
        have hms : maxSizeBytes
            ⟨some [], 0, [], [], 4, 5, .DEBUG, ⟨1, 3, 0, false, []⟩,
              DefaultSecurityConfig, ⟨0, 0⟩⟩ = 1048576 := by
          norm_num [maxSizeBytes, goInt64, Int.tdiv]
        rw [hms]
        decide)
    rw [h]
    decide

/-- Claim C7 witness: `max_files = 1` and `max_file_size = 0.000001` MiB
(a 1-byte threshold); one direct write triggers rotation, after which the
tracked size is 0, the file is empty, and the rotation counter reads 1. -/
theorem c7_truncate_rotation_witness :
    (writeMessage
        ⟨some [], 0, [], [], 4, 5, .DEBUG, ⟨1/1000000, 1, 10, false, []⟩,
          DefaultSecurityConfig, ⟨0, 0⟩⟩
        ⟨str "API", .INFO, str "x", ⟨2025, 1, 26, 12, 0, 0⟩, [], []⟩).currentSize
      = 0 ∧
    (writeMessage
        ⟨some [], 0, [], [], 4, 5, .DEBUG, ⟨1/1000000, 1, 10, false, []⟩,
          DefaultSecurityConfig, ⟨0, 0⟩⟩
        ⟨str "API", .INFO, str "x", ⟨2025, 1, 26, 12, 0, 0⟩, [], []⟩).file
      = some [] ∧
    (writeMessage
        ⟨some [], 0, [], [], 4, 5, .DEBUG, ⟨1/1000000, 1, 10, false, []⟩,
          DefaultSecurityConfig, ⟨0, 0⟩⟩
        ⟨str "API", .INFO, str "x", ⟨2025, 1, 26, 12, 0, 0⟩, [], []⟩).stats.FileRotations
      = 1 := by
  have h := c7_truncate_rotation
    ⟨some [], 0, [], [], 4, 5, .DEBUG, ⟨1/1000000, 1, 10, false, []⟩,
      DefaultSecurityConfig, ⟨0, 0⟩⟩
    ⟨str "API", .INFO, str "x", ⟨2025, 1, 26, 12, 0, 0⟩, [], []⟩ [] rfl
    (by decide)
    (by
      have hms : maxSizeBytes
          ⟨some [], 0, [], [], 4, 5, .DEBUG, ⟨1/1000000, 1, 10, false, []⟩,
            DefaultSecurityConfig, ⟨0, 0⟩⟩ = 1 := by
        norm_num [maxSizeBytes, goInt64, Int.tdiv]
      rw [hms]
      decide)
  rw [h]
  exact ⟨rfl, rfl, rfl⟩

/-! ## Claim C2 -/

/-- The filter predicate, characterised as the claim states it: not
strictly before the start bound when set, not strictly after the end bound
when set, severity exactly equal when set, service string-equal when
non-empty. -/
lemma matchesFilter_iff (e : LogEntry) (f : FilterOptions) :
    matchesFilter e f = true ↔
      ((∀ st, f.StartTime = some st → dtBefore e.Timestamp st = false) ∧
       (∀ et, f.EndTime = some et → dtAfter e.Timestamp et = false) ∧
       (∀ lv, f.Level = some lv → e.Level = lv) ∧
       (f.Service ≠ [] → e.Service = f.Service)) := by
  rcases f with ⟨st, et, lv, svc, lim⟩
  unfold matchesFilter
  rcases st with _ | st <;> rcases et with _ | et <;> rcases lv with _ | lv <;>
    split_ifs <;> simp_all

/-- The scan loop returns the accumulator followed by the filtered
parseable suffix, truncated to the remaining budget when the limit is
positive. -/
lemma getLogEntriesLoop_spec (filter : FilterOptions) :
    ∀ (lines : List (List Char)) (acc : List LogEntry),
      (filter.Limit > 0 → (acc.length : Int) < filter.Limit) →
      getLogEntriesLoop filter lines acc
        = acc ++ (if filter.Limit > 0
            then ((lines.filterMap parseLogEntry).filter
                (fun e => matchesFilter e filter)).take
                (filter.Limit - acc.length).toNat
            else (lines.filterMap parseLogEntry).filter
                (fun e => matchesFilter e filter)) := by
  intro lines
  induction lines with
  | nil =>
    intro acc hacc
    by_cases h : filter.Limit > 0 <;> simp [getLogEntriesLoop, h]
  | cons line rest ih =>
    intro acc hacc
    cases hp : parseLogEntry line with
    | none =>
      simp only [getLogEntriesLoop, hp]
      rw [ih acc hacc]
      simp [List.filterMap_cons, hp]
    | some entry =>
      simp only [getLogEntriesLoop, hp]
      by_cases hm : matchesFilter entry filter = false
      · rw [if_pos hm, ih acc hacc]
        simp [List.filterMap_cons, hp, hm]
      · rw [if_neg hm]
        have hmt : matchesFilter entry filter = true := by
          revert hm
          cases matchesFilter entry filter <;> simp
        by_cases hstop : filter.Limit > 0 ∧
            ((acc ++ [entry]).length : Int) ≥ filter.Limit
        · rw [if_pos hstop]
          obtain ⟨hpos, hge⟩ := hstop
          have hlt := hacc hpos
          simp only [List.length_append, List.length_cons, List.length_nil] at hge
          have htn : (filter.Limit - acc.length).toNat = 1 := by
            push_cast at hge hlt ⊢
            omega
          rw [if_pos hpos]
          simp [List.filterMap_cons, hp, hmt, htn]
        · rw [if_neg hstop]
          have hacc2 : filter.Limit > 0 → ((acc ++ [entry]).length : Int) < filter.Limit := by
            intro hpos
            rcases lt_or_ge ((acc ++ [entry]).length : Int) filter.Limit with h | h
            · exact h
            · exact absurd ⟨hpos, h⟩ hstop
          rw [ih (acc ++ [entry]) hacc2]
          by_cases hpos : filter.Limit > 0
          · rw [if_pos hpos, if_pos hpos]
            have hlt := hacc hpos
            have htn : (filter.Limit - acc.length).toNat
                = ((filter.Limit - (acc ++ [entry]).length).toNat) + 1 := by
              simp only [List.length_append, List.length_cons, List.length_nil]
              push_cast at hlt ⊢
              omega
            rw [htn]
            simp [List.filterMap_cons, hp, hmt, List.take_succ_cons]
          · rw [if_neg hpos, if_neg hpos]
            simp [List.filterMap_cons, hp, hmt]


/-- Claim C2: for every filter with a non-negative limit and every file,
`getLogEntries` returns exactly the subsequence of lines that parse
successfully and satisfy the filter, in file order, truncated to the first
`Limit` matches when the limit is positive (`specEntries` is that
description, written from the spec); unparseable lines are skipped without
aborting the scan.  The second conjunct pins the filter predicate to the
claim's four conditions. -/
theorem c2_get_entries_spec (filter : FilterOptions) (lines : List (List Char))
    (_hlim : 0 ≤ filter.Limit) :
    getLogEntries filter lines = specEntries filter lines ∧
    (∀ e : LogEntry, matchesFilter e filter = true ↔
      ((∀ st, filter.StartTime = some st → dtBefore e.Timestamp st = false) ∧
       (∀ et, filter.EndTime = some et → dtAfter e.Timestamp et = false) ∧
       (∀ lv, filter.Level = some lv → e.Level = lv) ∧
       (filter.Service ≠ [] → e.Service = filter.Service))) := by
  constructor
  · unfold getLogEntries specEntries
    have h := getLogEntriesLoop_spec filter lines []
      (fun hpos => by simpa using hpos)
    rw [h]
    by_cases hpos : filter.Limit > 0 <;> simp [hpos]
  · intro e
    exact matchesFilter_iff e filter

/-- Claim C2 witness: the S6 scenario.  Three lines with services
API, DB, API and levels INFO, ERROR, ERROR; the filter
`{service = API, level = ERROR, limit = 10}` returns exactly the third
line. -/
theorem c2_get_entries_spec_witness :
    getLogEntries ⟨none, none, some .ERROR, str "API", 10⟩
        [str "[API ] 26-01-2025 12:00:00 [INFO ] \"m1\"",
         str "[DB  ] 26-01-2025 12:00:01 [ERROR] \"m2\"",
         str "[API ] 26-01-2025 12:00:02 [ERROR] \"m3\""]
      = specEntries ⟨none, none, some .ERROR, str "API", 10⟩
        [str "[API ] 26-01-2025 12:00:00 [INFO ] \"m1\"",
         str "[DB  ] 26-01-2025 12:00:01 [ERROR] \"m2\"",
         str "[API ] 26-01-2025 12:00:02 [ERROR] \"m3\""] ∧
    getLogEntries ⟨none, none, some .ERROR, str "API", 10⟩
        [str "[API ] 26-01-2025 12:00:00 [INFO ] \"m1\"",
         str "[DB  ] 26-01-2025 12:00:01 [ERROR] \"m2\"",
         str "[API ] 26-01-2025 12:00:02 [ERROR] \"m3\""]
      = [⟨str "API", .ERROR, str "m3", ⟨2025, 1, 26, 12, 0, 2⟩,
          str "[API ] 26-01-2025 12:00:02 [ERROR] \"m3\""⟩] := by
  refine ⟨(c2_get_entries_spec _ _ (by decide)).1, ?_⟩
  decide

lemma eraseP_middle (p : CacheEntry → Bool) (pre suf : List CacheEntry)
    (nk : CacheEntry) (hnk : ¬(p nk = true)) :
    ∃ pre2 suf2, (pre ++ nk :: suf).eraseP p = pre2 ++ nk :: suf2 ∧
      pre2.Sublist pre ∧ suf2.Sublist suf := by
  by_cases hex : ∃ a ∈ pre, p a = true
  · obtain ⟨a, ha, hpa⟩ := hex
    exact ⟨pre.eraseP p, suf, List.eraseP_append_left hpa _ ha,
      List.eraseP_sublist pre, List.Sublist.refl suf⟩
  · push_neg at hex
    refine ⟨pre, suf.eraseP p, ?_, List.Sublist.refl pre,
      List.eraseP_sublist suf⟩
    rw [List.eraseP_append_right _ (by simpa using hex),
      List.eraseP_cons_of_neg hnk]

lemma find?_middle (k : List Char) (v : LogEntry) (tput : Int)
    (pre suf : List CacheEntry) (hpre : ∀ a ∈ pre, ¬(a.Key = k)) :
    (pre ++ (⟨k, v, tput⟩ : CacheEntry) :: suf).find? (fun n => n.Key = k)
      = some ⟨k, v, tput⟩ := by
  induction pre with
  | nil => simp [List.find?]
  | cons a rest ih =>
    have ha : ¬(a.Key = k) := hpre a (List.mem_cons_self a rest)
    simp only [List.cons_append, List.find?,
      show (decide (a.Key = k)) = false by simp [ha], List.append_eq]
    exact ih (fun b hb => hpre b (List.mem_cons_of_mem a hb))

lemma key_not_mem_eraseP (l : List CacheEntry) (j : List Char)
    (hnodup : (l.map (·.Key)).Nodup) :
    j ∉ ((l.eraseP (fun n => n.Key = j)).map (·.Key)) := by
  induction l with
  | nil => simp
  | cons a rest ih =>
    simp only [List.map_cons, List.nodup_cons] at hnodup
    by_cases ha : a.Key = j
    · rw [List.eraseP_cons_of_pos (by simpa using ha)]
      rw [← ha]
      exact hnodup.1
    · rw [List.eraseP_cons_of_neg (by simpa using ha)]
      simp only [List.map_cons, List.mem_cons, not_or]
      exact ⟨fun h => ha h.symm, ih hnodup.2⟩

lemma applyCacheOp_inv (k : List Char) (v : LogEntry) (tput : Int)
    (T : Finset (List Char)) (msz ttl0 : Int)
    (hcard : (T.card : Int) < msz)
    (op : CacheOp) (hT : op.target ∈ T) (hk : ¬(op.target = k))
    (c : LogCache) (hinv : CacheInv k v tput T msz ttl0 c) :
    CacheInv k v tput T msz ttl0 (applyCacheOp c op) := by
  obtain ⟨⟨pre, suf, hsplit, hpreT⟩, hnodup, hsize, hmsz, httl⟩ := hinv
  cases op with
  | get j t =>
    simp only [CacheOp.target] at hT hk
    cases hfind : c.entries.find? (fun n => n.Key = j) with
    | none =>
      simp only [applyCacheOp, cacheGet, hfind]
      exact ⟨⟨pre, suf, hsplit, hpreT⟩, hnodup, hsize, hmsz, httl⟩
    | some node =>
      have hnode_mem := List.mem_of_find?_eq_some hfind
      have hfp := List.find?_some hfind
      have hnode_key : node.Key = j := by simpa using hfp
      have hnk_not : ¬((fun n => decide (n.Key = j))
          (⟨k, v, tput⟩ : CacheEntry) = true) := by
        simp only [decide_eq_true_eq]
        intro h
        exact hk h.symm
      have hmid := eraseP_middle (fun n => decide (n.Key = j)) pre suf
        ⟨k, v, tput⟩ hnk_not
      rw [← hsplit] at hmid
      obtain ⟨pre2, suf2, hsplit2, hsub_pre, hsub_suf⟩ := hmid
      have hlen_erase : (c.entries.eraseP (fun n => decide (n.Key = j))).length
          = c.entries.length - 1 :=
        List.length_eraseP_of_mem hnode_mem hfp
      have hlen_pos : 0 < c.entries.length :=
        List.length_pos.2 (by
          intro h
          rw [h] at hnode_mem
          simp at hnode_mem)
      simp only [applyCacheOp, cacheGet, hfind]
      by_cases hexp : c.ttl > 0 ∧ t - node.Timestamp > c.ttl
      · rw [if_pos hexp]
        refine ⟨⟨pre2, suf2, hsplit2, ?_⟩, ?_, ?_, hmsz, httl⟩
        · intro x hx
          apply hpreT
          rw [List.mem_toFinset] at hx ⊢
          exact (hsub_pre.map (·.Key)).subset hx
        · exact List.Nodup.sublist ((List.eraseP_sublist _).map _) hnodup
        · show c.stats.Size - 1 = _
          rw [hsize, hlen_erase]
          omega
      · rw [if_neg hexp]
        refine ⟨⟨node :: pre2, suf2, by simp [hsplit2], ?_⟩, ?_, ?_, hmsz, httl⟩
        · intro x hx
          simp only [List.map_cons, List.mem_toFinset, List.mem_cons] at hx
          rcases hx with rfl | hx
          · rwa [hnode_key]
          · apply hpreT
            rw [List.mem_toFinset]
            exact (hsub_pre.map (·.Key)).subset hx
        · simp only [List.map_cons, List.nodup_cons]
          refine ⟨?_, List.Nodup.sublist ((List.eraseP_sublist _).map _) hnodup⟩
          rw [hnode_key]
          exact key_not_mem_eraseP _ _ hnodup
        · show c.stats.Size = _
          simp only [List.length_cons, hlen_erase]
          rw [hsize]
          omega
  | put j e t =>
    simp only [CacheOp.target] at hT hk
    cases hfind : c.entries.find? (fun n => n.Key = j) with
    | some node =>
      have hnode_mem := List.mem_of_find?_eq_some hfind
      have hfp := List.find?_some hfind
      have hnk_not : ¬((fun n => decide (n.Key = j))
          (⟨k, v, tput⟩ : CacheEntry) = true) := by
        simp only [decide_eq_true_eq]
        intro h
        exact hk h.symm
      have hmid := eraseP_middle (fun n => decide (n.Key = j)) pre suf
        ⟨k, v, tput⟩ hnk_not
      rw [← hsplit] at hmid
      obtain ⟨pre2, suf2, hsplit2, hsub_pre, hsub_suf⟩ := hmid
      have hlen_erase : (c.entries.eraseP (fun n => decide (n.Key = j))).length
          = c.entries.length - 1 :=
        List.length_eraseP_of_mem hnode_mem hfp
      have hlen_pos : 0 < c.entries.length :=
        List.length_pos.2 (by
          intro h
          rw [h] at hnode_mem
          simp at hnode_mem)
      simp only [applyCacheOp, cachePut, hfind]
      refine ⟨⟨⟨j, e, t⟩ :: pre2, suf2, by simp [hsplit2], ?_⟩, ?_, ?_, hmsz, httl⟩
      · intro x hx
        simp only [List.map_cons, List.mem_toFinset, List.mem_cons] at hx
        rcases hx with rfl | hx
        · exact hT
        · apply hpreT
          rw [List.mem_toFinset]
          exact (hsub_pre.map (·.Key)).subset hx
      · simp only [List.map_cons, List.nodup_cons]
        refine ⟨?_, List.Nodup.sublist ((List.eraseP_sublist _).map _) hnodup⟩
        exact key_not_mem_eraseP _ _ hnodup
      · show c.stats.Size = _
        simp only [List.length_cons, hlen_erase]
        rw [hsize]
        push_cast
        omega
    | none =>
      have hnotin := List.find?_eq_none.1 hfind
      have hjnot : j ∉ c.entries.map (·.Key) := by
        intro hm
        obtain ⟨a, ha, hak⟩ := List.mem_map.1 hm
        exact hnotin a ha (by simpa using hak)
      simp only [applyCacheOp, cachePut, hfind]
      by_cases hev : c.stats.Size + 1 > c.maxSize
      · rw [if_pos hev]
        cases hsuf : suf with
        | nil =>
          exfalso
          rw [hsuf] at hsplit
          have hprenodup : (pre.map (·.Key)).Nodup := by
            rw [hsplit] at hnodup
            simp only [List.map_append, List.map_cons] at hnodup
            exact hnodup.of_append_left
          have hjpre : j ∉ (pre.map (·.Key)).toFinset := by
            rw [List.mem_toFinset]
            intro hm
            apply hjnot
            rw [hsplit]
            simp only [List.map_append, List.map_cons]
            exact List.mem_append.2 (Or.inl hm)
          have hsubT : insert j ((pre.map (·.Key)).toFinset) ⊆ T :=
            Finset.insert_subset hT hpreT
          have hcard2 := Finset.card_le_card hsubT
          rw [Finset.card_insert_of_not_mem hjpre,
            List.toFinset_card_of_nodup hprenodup] at hcard2
          simp only [List.length_map] at hcard2
          have hlenc : c.entries.length = pre.length + 1 := by
            rw [hsplit]
            simp
          rw [hsize, hlenc] at hev
          push_cast at hev hcard
          omega
        | cons s0 sufr =>
          unfold evictOldest
          rw [hsuf] at hsplit
          cases hlast : ((⟨j, e, t⟩ : CacheEntry) :: c.entries).getLast? with
          | none =>
            rw [List.getLast?_eq_none_iff] at hlast
            simp at hlast
          | some z =>
            simp only [hlast]
            have hdrop : ((⟨j, e, t⟩ : CacheEntry) :: c.entries).dropLast
                = (⟨j, e, t⟩ :: pre) ++ (⟨k, v, tput⟩ : CacheEntry) ::
                  (s0 :: sufr).dropLast := by
              rw [List.dropLast_cons_of_ne_nil (by
                rw [hsplit]; simp)]
              rw [hsplit, List.dropLast_append_of_ne_nil _ (by simp)]
              rw [List.dropLast_cons_of_ne_nil (by simp)]
              simp
            have hnodup2 : (((⟨j, e, t⟩ : CacheEntry) :: c.entries).map
                (·.Key)).Nodup := by
              simp only [List.map_cons, List.nodup_cons]
              exact ⟨hjnot, hnodup⟩
            refine ⟨⟨⟨j, e, t⟩ :: pre, (s0 :: sufr).dropLast, ?_, ?_⟩, ?_, ?_,
              hmsz, httl⟩
            · show ((⟨j, e, t⟩ : CacheEntry) :: c.entries).dropLast = _
              rw [hdrop]
            · intro x hx
              simp only [List.map_cons, List.mem_toFinset, List.mem_cons] at hx
              rcases hx with rfl | hx
              · exact hT
              · apply hpreT
                rw [List.mem_toFinset]
                exact hx
            · show ((((⟨j, e, t⟩ : CacheEntry) :: c.entries).dropLast).map
                  (·.Key)).Nodup
              exact List.Nodup.sublist ((List.dropLast_sublist _).map _) hnodup2
            · show c.stats.Size + 1 - 1 = _
              simp only [List.length_dropLast, List.length_cons]
              rw [hsize]
              push_cast
              omega
      · rw [if_neg hev]
        refine ⟨⟨⟨j, e, t⟩ :: pre, suf, by simp [hsplit], ?_⟩, ?_, ?_, hmsz, httl⟩
        · intro x hx
          simp only [List.map_cons, List.mem_toFinset, List.mem_cons] at hx
          rcases hx with rfl | hx
          · exact hT
          · apply hpreT
            rw [List.mem_toFinset]
            exact hx
        · simp only [List.map_cons, List.nodup_cons]
          exact ⟨hjnot, hnodup⟩
        · show c.stats.Size + 1 = _
          simp only [List.length_cons]
          rw [hsize]
          push_cast
          omega


lemma runCacheOps_inv (k : List Char) (v : LogEntry) (tput : Int)
    (T : Finset (List Char)) (msz ttl0 : Int)
    (hcard : (T.card : Int) < msz) :
    ∀ (ops : List CacheOp) (c : LogCache),
      (∀ op ∈ ops, CacheOp.target op ∈ T ∧ ¬(CacheOp.target op = k)) →
      CacheInv k v tput T msz ttl0 c →
      CacheInv k v tput T msz ttl0 (runCacheOps c ops) := by
  intro ops
  induction ops with
  | nil =>
    intro c _ h
    exact h
  | cons op rest ih =>
    intro c hops hinv
    simp only [runCacheOps]
    exact ih _ (fun o ho => hops o (List.mem_cons_of_mem _ ho))
      (applyCacheOp_inv k v tput T msz ttl0 hcard op
        (hops op (List.mem_cons_self _ _)).1
        (hops op (List.mem_cons_self _ _)).2 c hinv)

lemma cachePut_establishes (c0 : LogCache) (k : List Char) (v : LogEntry)
    (tput : Int) (T : Finset (List Char))
    (hnodup : (c0.entries.map (·.Key)).Nodup)
    (hsize : c0.stats.Size = (c0.entries.length : Int))
    (hmszpos : 1 ≤ c0.maxSize) :
    CacheInv k v tput T c0.maxSize c0.ttl (cachePut c0 k v tput) := by
  cases hfind : c0.entries.find? (fun n => n.Key = k) with
  | some node =>
    have hnode_mem := List.mem_of_find?_eq_some hfind
    have hfp := List.find?_some hfind
    have hlen_erase : (c0.entries.eraseP (fun n => decide (n.Key = k))).length
        = c0.entries.length - 1 :=
      List.length_eraseP_of_mem hnode_mem hfp
    have hlen_pos : 0 < c0.entries.length :=
      List.length_pos.2 (by
        intro h
        rw [h] at hnode_mem
        simp at hnode_mem)
    simp only [cachePut, hfind]
    refine ⟨⟨[], _, rfl, by simp⟩, ?_, ?_, rfl, rfl⟩
    · simp only [List.map_cons, List.nodup_cons]
      exact ⟨key_not_mem_eraseP _ _ hnodup,
        List.Nodup.sublist ((List.eraseP_sublist _).map _) hnodup⟩
    · show c0.stats.Size = _
      simp only [List.length_cons, hlen_erase]
      rw [hsize]
      omega
  | none =>
    have hnotin := List.find?_eq_none.1 hfind
    have hjnot : k ∉ c0.entries.map (·.Key) := by
      intro hm
      obtain ⟨a, ha, hak⟩ := List.mem_map.1 hm
      exact hnotin a ha (by simpa using hak)
    simp only [cachePut, hfind]
    by_cases hev : c0.stats.Size + 1 > c0.maxSize
    · rw [if_pos hev]
      have hne : c0.entries ≠ [] := by
        intro h
        rw [h] at hsize
        simp at hsize
        omega
      unfold evictOldest
      cases hlast : ((⟨k, v, tput⟩ : CacheEntry) :: c0.entries).getLast? with
      | none =>
        rw [List.getLast?_eq_none_iff] at hlast
        simp at hlast
      | some z =>
        simp only [hlast]
        have hnodup2 : (((⟨k, v, tput⟩ : CacheEntry) :: c0.entries).map
            (·.Key)).Nodup := by
          simp only [List.map_cons, List.nodup_cons]
          exact ⟨hjnot, hnodup⟩
        refine ⟨⟨[], c0.entries.dropLast, ?_, by simp⟩, ?_, ?_, rfl, rfl⟩
        · show ((⟨k, v, tput⟩ : CacheEntry) :: c0.entries).dropLast = _
          rw [List.dropLast_cons_of_ne_nil hne]
          simp
        · show ((((⟨k, v, tput⟩ : CacheEntry) :: c0.entries).dropLast).map
              (·.Key)).Nodup
          exact List.Nodup.sublist ((List.dropLast_sublist _).map _) hnodup2
        · show c0.stats.Size + 1 - 1 = _
          simp only [List.length_dropLast, List.length_cons]
          rw [hsize]
          omega
    · rw [if_neg hev]
      refine ⟨⟨[], c0.entries, rfl, by simp⟩, ?_, ?_, rfl, rfl⟩
      · simp only [List.map_cons, List.nodup_cons]
        exact ⟨hjnot, hnodup⟩
      · show c0.stats.Size + 1 = _
        simp only [List.length_cons]
        rw [hsize]
        omega

/-- Claim C8 (amended): after `put(k, v)`, a `get(k)` performed within the ttl
of the put returns `v`, provided no intervening cache operation targets `k` and
the intervening operations touch fewer than `max_size` distinct keys.  The
original wording, which counted only *insertions* of new keys, is refuted by
`c8_counterexample`: updates of existing keys and gets also move nodes in front
of `k`, so `k` can be evicted after fewer than `max_size` insertions. -/
theorem c8_cache_retention (c0 : LogCache) (k : List Char) (v : LogEntry)
    (tput tget : Int) (ops : List CacheOp)
    (hnodup : (c0.entries.map (·.Key)).Nodup)
    (hsize : c0.stats.Size = (c0.entries.length : Int))
    (hops : ∀ op ∈ ops, ¬(CacheOp.target op = k))
    (hcount : (((ops.map CacheOp.target).dedup.length : Nat) : Int) < c0.maxSize)
    (httl : ¬(c0.ttl > 0 ∧ tget - tput > c0.ttl)) :
    (cacheGet (runCacheOps (cachePut c0 k v tput) ops) k tget).1 = some v := by
  have hcard : (((ops.map CacheOp.target).toFinset.card : Nat) : Int)
      < c0.maxSize := by
    rw [List.card_toFinset]
    exact hcount
  have hmszpos : 1 ≤ c0.maxSize := by
    have h0 : (0 : Int) ≤ (((ops.map CacheOp.target).dedup.length : Nat) : Int) := by
      positivity
    omega
  have hinit := cachePut_establishes c0 k v tput
    (ops.map CacheOp.target).toFinset hnodup hsize hmszpos
  have hfin := runCacheOps_inv k v tput (ops.map CacheOp.target).toFinset
    c0.maxSize c0.ttl hcard ops _
    (fun op ho =>
      ⟨List.mem_toFinset.2 (List.mem_map_of_mem _ ho), hops op ho⟩)
    hinit
  obtain ⟨⟨pre, suf, hsplit, hpreT⟩, hnodup2, hsize2, hmsz2, httl2⟩ := hfin
  have hkpre : ∀ a ∈ pre, ¬(a.Key = k) := by
    intro a ha hak
    rw [hsplit] at hnodup2
    simp only [List.map_append, List.map_cons] at hnodup2
    rw [List.nodup_append] at hnodup2
    exact hnodup2.2.2 (List.mem_map_of_mem _ ha)
      (by rw [hak]; exact List.mem_cons_self _ _)
  have hfind2 : (runCacheOps (cachePut c0 k v tput) ops).entries.find?
      (fun n => n.Key = k) = some ⟨k, v, tput⟩ := by
    rw [hsplit]
    exact find?_middle k v tput pre suf hkpre
  simp only [cacheGet, hfind2]
  rw [if_neg (by
    rw [httl2]
    simpa using httl)]


/-- Claim C8, counterexample to the original wording: with `max_size = 2` and
`ttl = 0` (no expiry), starting from a cache holding key `a`, put `k`, then
update `a` (an update, not an insertion) and insert `b`.  Only one distinct new
key was inserted between the put and the get — fewer than `max_size` — yet
`get(k)` misses, because the update of `a` moved it in front of `k` and the
insertion of `b` then evicted `k` from the tail. -/
theorem c8_counterexample :
    (insertedKeys
        (cachePut
          (cachePut ⟨[], 2, 0, ⟨0, 0, 0, 0⟩⟩ (str "a")
            ⟨str "A", LogLevel.INFO, str "a", ⟨2025, 1, 1, 0, 0, 0⟩, str "ra"⟩ 0)
          (str "k")
          ⟨str "K", LogLevel.INFO, str "k", ⟨2025, 1, 1, 0, 0, 0⟩, str "rk"⟩ 0)
        (str "k")
        [CacheOp.put (str "a")
            ⟨str "A", LogLevel.INFO, str "a", ⟨2025, 1, 1, 0, 0, 0⟩, str "ra"⟩ 0,
          CacheOp.put (str "b")
            ⟨str "B", LogLevel.INFO, str "b", ⟨2025, 1, 1, 0, 0, 0⟩, str "rb"⟩ 0]).length
      = 1 ∧
    (cacheGet
        (runCacheOps
          (cachePut
            (cachePut ⟨[], 2, 0, ⟨0, 0, 0, 0⟩⟩ (str "a")
              ⟨str "A", LogLevel.INFO, str "a", ⟨2025, 1, 1, 0, 0, 0⟩, str "ra"⟩ 0)
            (str "k")
            ⟨str "K", LogLevel.INFO, str "k", ⟨2025, 1, 1, 0, 0, 0⟩, str "rk"⟩ 0)
          [CacheOp.put (str "a")
              ⟨str "A", LogLevel.INFO, str "a", ⟨2025, 1, 1, 0, 0, 0⟩, str "ra"⟩ 0,
            CacheOp.put (str "b")
              ⟨str "B", LogLevel.INFO, str "b", ⟨2025, 1, 1, 0, 0, 0⟩, str "rb"⟩ 0])
        (str "k") 0).1 = none := by
  decide

/-- Witness for `c8_cache_retention` at a concrete scenario: empty cache with
`max_size = 2`, put `k`, insert one other key `a`, then `get(k)` still hits. -/
theorem c8_cache_retention_witness :
    (cacheGet
        (runCacheOps
          (cachePut ⟨[], 2, 0, ⟨0, 0, 0, 0⟩⟩ (str "k")
            ⟨str "K", LogLevel.INFO, str "k", ⟨2025, 1, 1, 0, 0, 0⟩, str "rk"⟩ 0)
          [CacheOp.put (str "a")
              ⟨str "A", LogLevel.INFO, str "a", ⟨2025, 1, 1, 0, 0, 0⟩, str "ra"⟩ 0])
        (str "k") 0).1
      = some ⟨str "K", LogLevel.INFO, str "k", ⟨2025, 1, 1, 0, 0, 0⟩, str "rk"⟩ :=
  c8_cache_retention ⟨[], 2, 0, ⟨0, 0, 0, 0⟩⟩ (str "k")
    ⟨str "K", LogLevel.INFO, str "k", ⟨2025, 1, 1, 0, 0, 0⟩, str "rk"⟩ 0 0
    [CacheOp.put (str "a")
        ⟨str "A", LogLevel.INFO, str "a", ⟨2025, 1, 1, 0, 0, 0⟩, str "ra"⟩ 0]
    (by decide) (by decide) (by decide) (by decide) (by decide)

end ZLog
